import Mathlib

/-!
# PaprikaPlay hold'em core: shallow embedding and verification

This file embeds the hold'em game module and the generic betting engine of
the PaprikaPlay repository (`packages/games/holdem/src/index.ts`, which also
carries the betting package and the game-kit types) into Lean 4, together
with the deterministic RNG of `packages/engine/src/index.ts`, and proves or
refutes the specification claims about them.

Modelling conventions:
* Chip quantities are `Int` (JavaScript numbers used as integers).
* A TypeScript `Record<string, T>` whose key set always equals the seat
  order (the betting engine maps) is modelled as a total function
  `String → T`; the `typeof x === 'number'` presence tests of the source
  become membership tests in `seatOrder`, which is exactly the key set the
  source maintains for those records.  Records the source iterates with
  `Object.entries` (showdown awards) are modelled as association lists to
  keep the key insertion order observable.
* TypeScript `throw` and returned `{ ok: false, error }` failures are both
  modelled with `Except String`; the carried message is the source message.
* `SeededRng.next` returns `state / 2^32` as an exact dyadic rational; with
  `state < 2^32` and `n ≤ 52` the double arithmetic of the source is exact,
  so `Math.floor(next() * n)` is embedded as `state * n / 2^32` on `Nat`.
-/

/-! ## Map and list preliminaries -/

/-- Total-function model of a string-keyed record. -/
abbrev PMap (α : Type) := String → α

/-- Point update of a `PMap` (assignment `m[k] = v`). -/
def setKey (m : PMap α) (k : String) (v : α) : PMap α :=
  fun x => if x = k then v else m x

theorem setKey_same (m : PMap α) (k : String) (v : α) : setKey m k v k = v := by
  simp [setKey]

theorem setKey_other (m : PMap α) (k : String) (v : α) (x : String) (h : x ≠ k) :
    setKey m k v x = m x := by
  simp [setKey, h]

/-- Sum of an integer-valued function over a list. -/
def sumBy (l : List α) (f : α → Int) : Int :=
  (l.map f).sum

theorem sumBy_nil (f : α → Int) : sumBy ([] : List α) f = 0 := rfl

theorem sumBy_cons (x : α) (l : List α) (f : α → Int) :
    sumBy (x :: l) f = f x + sumBy l f := by
  simp [sumBy]

theorem sumBy_append (l₁ l₂ : List α) (f : α → Int) :
    sumBy (l₁ ++ l₂) f = sumBy l₁ f + sumBy l₂ f := by
  simp [sumBy]

theorem sumBy_congr {l : List α} {f g : α → Int} (h : ∀ x ∈ l, f x = g x) :
    sumBy l f = sumBy l g := by
  induction l with
  | nil => rfl
  | cons x xs ih =>
      rw [sumBy_cons, sumBy_cons, h x (by simp), ih (fun y hy => h y (by simp [hy]))]

theorem sumBy_perm {l₁ l₂ : List α} (h : l₁.Perm l₂) (f : α → Int) :
    sumBy l₁ f = sumBy l₂ f := by
  unfold sumBy
  exact List.Perm.sum_eq (h.map f)

/-- Stable insertion used by `sortByCmp`. -/
def insertLe (le : α → α → Bool) (x : α) : List α → List α
  | [] => [x]
  | y :: ys => if le x y then x :: y :: ys else y :: insertLe le x ys

/-- Stable sort by a boolean "may come before" relation; embeds the
JavaScript `Array.prototype.sort` calls of the source (their comparators are
total, so the sorted result is unique and the sorting algorithm does not
matter). -/
def sortByCmp (le : α → α → Bool) : List α → List α
  | [] => []
  | x :: xs => insertLe le x (sortByCmp le xs)

theorem insertLe_perm (le : α → α → Bool) (x : α) (l : List α) :
    (insertLe le x l).Perm (x :: l) := by
  induction l with
  | nil => simp [insertLe]
  | cons y ys ih =>
      unfold insertLe
      by_cases h : le x y = true
      · simp [h]
      · simp only [h]
        simp only [Bool.false_eq_true, if_false]
        exact ((ih.cons y).trans (List.Perm.swap x y ys))

theorem sortByCmp_perm (le : α → α → Bool) (l : List α) :
    (sortByCmp le l).Perm l := by
  induction l with
  | nil => simp [sortByCmp]
  | cons x xs ih =>
      exact (insertLe_perm le x (sortByCmp le xs)).trans (ih.cons x)

/-- `le` is total: any two elements are comparable. -/
def TotalLe (le : α → α → Bool) : Prop :=
  ∀ a b : α, le a b = true ∨ le b a = true

/-- `le` is transitive. -/
def TransLe (le : α → α → Bool) : Prop :=
  ∀ a b c : α, le a b = true → le b c = true → le a c = true

theorem mem_insertLe {le : α → α → Bool} {x b : α} {l : List α}
    (hb : b ∈ insertLe le x l) : b = x ∨ b ∈ l := by
  have := (insertLe_perm le x l).mem_iff.mp hb
  simpa using this

theorem insertLe_sorted (le : α → α → Bool) (htot : TotalLe le) (htr : TransLe le)
    (x : α) (l : List α) (h : l.Pairwise (fun a b => le a b = true)) :
    (insertLe le x l).Pairwise (fun a b => le a b = true) := by
  induction l with
  | nil => simp [insertLe]
  | cons y ys ih =>
      rcases List.pairwise_cons.mp h with ⟨hy, hys⟩
      unfold insertLe
      by_cases hxy : le x y = true
      · simp only [hxy, if_true]
        refine List.pairwise_cons.mpr ⟨?_, h⟩
        intro b hb
        rcases List.mem_cons.mp hb with rfl | hb
        · exact hxy
        · exact htr x y b hxy (hy b hb)
      · simp only [hxy]
        simp only [Bool.false_eq_true, if_false]
        refine List.pairwise_cons.mpr ⟨?_, ih hys⟩
        intro b hb
        rcases mem_insertLe hb with rfl | hb
        · rcases htot b y with hx | hx
          · exact absurd hx hxy
          · exact hx
        · exact hy b hb

theorem sortByCmp_sorted (le : α → α → Bool) (htot : TotalLe le) (htr : TransLe le)
    (l : List α) : (sortByCmp le l).Pairwise (fun a b => le a b = true) := by
  induction l with
  | nil => simp [sortByCmp]
  | cons x xs ih => exact insertLe_sorted le htot htr x (sortByCmp le xs) ih

/-- A sorted permutation of a list is unique once `le` is antisymmetric. -/
theorem sorted_perm_unique {le : α → α → Bool}
    (hanti : ∀ a b : α, le a b = true → le b a = true → a = b) :
    ∀ {l₁ l₂ : List α}, l₁.Perm l₂ →
      l₁.Pairwise (fun a b => le a b = true) →
      l₂.Pairwise (fun a b => le a b = true) → l₁ = l₂ := by
  intro l₁
  induction l₁ with
  | nil => intro l₂ hp _ _; simp [hp.nil_eq]
  | cons x xs ih =>
      intro l₂ hp h₁ h₂
      cases l₂ with
      | nil => exact absurd hp.symm.nil_eq (by simp)
      | cons y ys =>
          rcases List.pairwise_cons.mp h₁ with ⟨hx, hxs⟩
          rcases List.pairwise_cons.mp h₂ with ⟨hy, hys⟩
          have hxy : x = y := by
            have hxmem : x = y ∨ x ∈ ys := by
              have := hp.mem_iff.mp (by simp : x ∈ x :: xs)
              simpa using this
            have hymem : y = x ∨ y ∈ xs := by
              have := hp.symm.mem_iff.mp (by simp : y ∈ y :: ys)
              simpa using this
            rcases hxmem with h | h
            · exact h
            · rcases hymem with h' | h'
              · exact h'.symm
              · exact hanti x y (hx y h') (hy x h)
          subst hxy
          have htl : xs.Perm ys := (List.perm_cons x).mp hp
          rw [ih htl hxs hys]

/-- Membership through `sortByCmp`. -/
theorem mem_sortByCmp {le : α → α → Bool} {l : List α} {x : α} :
    x ∈ sortByCmp le l ↔ x ∈ l :=
  (sortByCmp_perm le l).mem_iff

/-! ## Cards, deterministic RNG, deck (engine package) -/

/-- Card suit (engine package `Suit`). -/
inductive Suit
  | clubs | diamonds | hearts | spades
deriving DecidableEq, Repr

/-- Card rank (engine package `Rank`). -/
inductive Rank
  | r2 | r3 | r4 | r5 | r6 | r7 | r8 | r9 | rT | rJ | rQ | rK | rA
deriving DecidableEq, Repr

/-- A playing card (engine package `Card`). -/
structure Card where
  rank : Rank
  suit : Suit
deriving DecidableEq, Repr

/-- `RANK_TO_VALUE` of the hold'em module: ordinal values 2..14, Ace high. -/
def RANK_TO_VALUE : Rank → Int
  | .r2 => 2
  | .r3 => 3
  | .r4 => 4
  | .r5 => 5
  | .r6 => 6
  | .r7 => 7
  | .r8 => 8
  | .r9 => 9
  | .rT => 10
  | .rJ => 11
  | .rQ => 12
  | .rK => 13
  | .rA => 14

/-- Human-readable suit name, used for the action-log card labels. -/
def suitName : Suit → String
  | .clubs => "clubs"
  | .diamonds => "diamonds"
  | .hearts => "hearts"
  | .spades => "spades"

/-- Rank letter used in action-log card labels. -/
def rankName : Rank → String
  | .r2 => "2"
  | .r3 => "3"
  | .r4 => "4"
  | .r5 => "5"
  | .r6 => "6"
  | .r7 => "7"
  | .r8 => "8"
  | .r9 => "9"
  | .rT => "T"
  | .rJ => "J"
  | .rQ => "Q"
  | .rK => "K"
  | .rA => "A"

/-- Action-log label `${card.rank}${card.suit[0]}` of the source. -/
def cardLabel (c : Card) : String :=
  rankName c.rank ++ (suitName c.suit).take 1

/-- `SeededRng` of the engine package: a 32-bit linear congruential
generator.  The TypeScript field is `state >>> 0`, i.e. a `Nat` below
`2^32`. -/
structure SeededRng where
  state : Nat
deriving Repr

/-- The `SeededRng` constructor (`this.state = seed >>> 0`, i.e. the seed
reduced modulo `2^32` into a nonnegative value). -/
def SeededRng.init (seed : Int) : SeededRng :=
  ⟨(seed.emod 4294967296).toNat⟩

/-- One LCG step.  The source's `next()` returns `state / 2^32 ∈ [0,1)`;
we return the new state (the numerator of that exact dyadic fraction). -/
def SeededRng.next (r : SeededRng) : SeededRng × Nat :=
  let s := (1664525 * r.state + 1013904223) % 4294967296
  (⟨s⟩, s)

/-- `nextInt(maxExclusive) = Math.floor(next() * maxExclusive)`.  For
`state < 2^32` and `maxExclusive ≤ 52` the double-precision product of the
source is exact, so the floor equals `state * maxExclusive / 2^32` in
natural division. -/
def SeededRng.nextInt (r : SeededRng) (maxExclusive : Nat) : SeededRng × Nat :=
  let (r', num) := r.next
  (r', num * maxExclusive / 4294967296)

/-- All suits in their fixed order. -/
def allSuits : List Suit :=
  [.clubs, .diamonds, .hearts, .spades]

/-- All ranks in their fixed order. -/
def allRanks : List Rank :=
  [.r2, .r3, .r4, .r5, .r6, .r7, .r8, .r9, .rT, .rJ, .rQ, .rK, .rA]

/-- Modelled from the spec: `buildDeck` of the engine package is not under
`src/` (only `SeededRng` is); per §4.A the deck is "the 52 (suit,rank)
pairs in a fixed canonical order". -/
def buildDeck : List Card :=
  allSuits.flatMap fun s => allRanks.map fun r => { rank := r, suit := s }

/-- Swap two positions of a list (out-of-range indices leave it unchanged). -/
def listSwap (l : List α) (i j : Nat) : List α :=
  match l.get? i, l.get? j with
  | some a, some b => (l.set i b).set j a
  | _, _ => l

/-- Fisher-Yates loop: index `i` runs from `n-1` down to `1`, swapping
position `i` with `nextInt(i+1)`. -/
def shuffleGo (rng : SeededRng) (l : List Card) : Nat → List Card
  | 0 => l
  | i + 1 =>
      let (rng', j) := rng.nextInt (i + 2)
      shuffleGo rng' (listSwap l (i + 1) j) i

/-- Modelled from the spec: `shuffleDeck` of the engine package is not under
`src/`; per §4.A it is a Fisher-Yates shuffle driven by `SeededRng`,
"iterating i from n−1 down to 1, swapping with `nextInt(i+1)`". -/
def shuffleDeck (deck : List Card) (rng : SeededRng) : List Card :=
  shuffleGo rng deck (deck.length - 1)

/-! ## Hand evaluator (hold'em module) -/

/-- Hand categories in ascending strength order. -/
inductive HandScoreCategory
  | high_card | pair | two_pair | three_of_a_kind | straight
  | flush | full_house | four_of_a_kind | straight_flush
deriving DecidableEq, Repr

/-- `HandScore` of the hold'em module. -/
structure HandScore where
  category : HandScoreCategory
  scoreVector : List Int
  label : String
deriving DecidableEq, Repr

/-- The comparison loop of `compareScoreVectors` once the left vector is
exhausted (`left = 0`, `right = b[i]`). -/
def cmpZeroRight : List Int → Int
  | [] => 0
  | y :: ys => if (0 : Int) > y then 1 else if (0 : Int) < y then -1 else cmpZeroRight ys

/-- The comparison loop of `compareScoreVectors` once the right vector is
exhausted (`left = a[i]`, `right = 0`). -/
def cmpLeftZero : List Int → Int
  | [] => 0
  | x :: xs => if x > 0 then 1 else if x < 0 then -1 else cmpLeftZero xs

/-- `compareScoreVectors`: lexicographic comparison, missing entries read as
`0` (`a[i] ?? 0`), first difference decides.  The two helpers above unroll
the source's single loop once either side is exhausted, which keeps this
recursion structural. -/
def compareScoreVectors : List Int → List Int → Int
  | [], b => cmpZeroRight b
  | a@(_ :: _), [] => cmpLeftZero a
  | x :: xs, y :: ys =>
      if x > y then 1 else if x < y then -1 else compareScoreVectors xs ys

theorem compareScoreVectors_nil_right : ∀ a : List Int,
    compareScoreVectors a [] = cmpLeftZero a := by
  intro a
  cases a <;> rfl

theorem compareScoreVectors_nil_left : ∀ b : List Int,
    compareScoreVectors [] b = cmpZeroRight b := by
  intro b
  rfl

/-- Head of a score vector with `?? 0` padding. -/
def headZ : List Int → Int
  | [] => 0
  | x :: _ => x

/-- Tail of a score vector (empty stays empty). -/
def tailZ : List Int → List Int
  | [] => []
  | _ :: xs => xs

theorem compareScoreVectors_unfold (a b : List Int) :
    compareScoreVectors a b =
      if headZ a > headZ b then 1
      else if headZ a < headZ b then -1
      else compareScoreVectors (tailZ a) (tailZ b) := by
  match a, b with
  | [], [] => simp [compareScoreVectors, cmpZeroRight, headZ, tailZ]
  | x :: xs, [] =>
      simp only [compareScoreVectors, cmpLeftZero, headZ, tailZ,
        compareScoreVectors_nil_right]
  | [], y :: ys =>
      simp only [compareScoreVectors, cmpZeroRight, headZ, tailZ]
  | x :: xs, y :: ys => simp [compareScoreVectors, headZ, tailZ]

theorem compareScoreVectors_refl (a : List Int) : compareScoreVectors a a = 0 := by
  induction a with
  | nil => simp [compareScoreVectors, cmpZeroRight]
  | cons x xs ih => simp [compareScoreVectors, ih]

theorem compareScoreVectors_swap (a b : List Int) :
    compareScoreVectors a b = -compareScoreVectors b a := by
  have key : ∀ n a b, List.length a + List.length b ≤ n →
      compareScoreVectors a b = -compareScoreVectors b a := by
    intro n
    induction n with
    | zero =>
        intro a b hlen
        have ha : a = [] := List.length_eq_zero.mp (by omega)
        have hb : b = [] := List.length_eq_zero.mp (by omega)
        subst ha; subst hb; simp [compareScoreVectors, cmpZeroRight]
    | succ n ih =>
        intro a b hlen
        by_cases hab : a = [] ∧ b = []
        · rcases hab with ⟨ha, hb⟩; subst ha; subst hb; simp [compareScoreVectors, cmpZeroRight]
        · have hdec : (tailZ a).length + (tailZ b).length ≤ n := by
            rcases a with _ | ⟨x, xs⟩ <;> rcases b with _ | ⟨y, ys⟩ <;>
              simp_all [tailZ]
            all_goals omega
          rw [compareScoreVectors_unfold a b, compareScoreVectors_unfold b a,
            ih (tailZ a) (tailZ b) hdec]
          split_ifs <;> omega
  exact key (a.length + b.length) a b le_rfl

theorem compareScoreVectors_le_trans {a b c : List Int}
    (h₁ : compareScoreVectors a b ≤ 0) (h₂ : compareScoreVectors b c ≤ 0) :
    compareScoreVectors a c ≤ 0 := by
  have key : ∀ n a b c, List.length a + List.length b + List.length c ≤ n →
      compareScoreVectors a b ≤ 0 → compareScoreVectors b c ≤ 0 →
      compareScoreVectors a c ≤ 0 := by
    intro n
    induction n with
    | zero =>
        intro a b c hlen _ _
        have ha : a = [] := List.length_eq_zero.mp (by omega)
        have hc : c = [] := List.length_eq_zero.mp (by omega)
        subst ha; subst hc; simp [compareScoreVectors, cmpZeroRight]
    | succ n ih =>
        intro a b c hlen h₁ h₂
        by_cases hall : a = [] ∧ b = [] ∧ c = []
        · rcases hall with ⟨ha, _, hc⟩; subst ha; subst hc
          simp [compareScoreVectors, cmpZeroRight]
        · have hdec : (tailZ a).length + (tailZ b).length + (tailZ c).length ≤ n := by
            rcases a with _ | ⟨x, xs⟩ <;> rcases b with _ | ⟨y, ys⟩ <;>
              rcases c with _ | ⟨z, zs⟩ <;> simp_all [tailZ] <;> omega
          rw [compareScoreVectors_unfold a b] at h₁
          rw [compareScoreVectors_unfold b c] at h₂
          rw [compareScoreVectors_unfold a c]
          split_ifs at h₁ h₂ ⊢ <;> try omega
          exact ih _ _ _ hdec h₁ h₂
  exact key (a.length + b.length + c.length) a b c le_rfl h₁ h₂

/-- Descending comparator `(a, b) => b - a` of the source: `a` may come
before `b` iff `b ≤ a`. -/
def descIntLe (a b : Int) : Bool :=
  decide (b ≤ a)

/-- One `countsByRank.set(value, (get ?? 0) + 1)` step.  A JavaScript `Map`
keeps first-insertion key order, so an existing key is bumped in place and a
new key is appended. -/
def tallyInsert (l : List (Int × Nat)) (v : Int) : List (Int × Nat) :=
  if l.any (fun e => e.1 == v) then
    l.map (fun e => if e.1 == v then (e.1, e.2 + 1) else e)
  else l ++ [(v, 1)]

/-- `countsByRank` as an entry list in first-insertion order. -/
def tally (vals : List Int) : List (Int × Nat) :=
  vals.foldl tallyInsert []

/-- Comparator for rank groups: count descending, then value descending
(`b[1] - a[1]`, tie-broken by `b[0] - a[0]`). -/
def groupLe (a b : Int × Nat) : Bool :=
  decide (b.2 < a.2) || (decide (b.2 = a.2) && decide (b.1 ≤ a.1))

/-- The straight-window scan: first `i` with
`unique[i] - unique[i+4] == 4`, else high 0. -/
def findStraightHigh (unique : List Int) : Int :=
  match (List.range (unique.length - 4)).find?
      (fun i => unique.getD i 0 - unique.getD (i + 4) 0 == 4) with
  | some i => unique.getD i 0
  | none => 0

/-- `evaluateFive` of the hold'em module.  Out-of-range group accesses
(`groups[1]` on a shorter list), which would crash the source, are read with
a `(0, 0)` default; they are unreachable for the 5-card inputs the module
produces. -/
def evaluateFive (cards : List Card) : HandScore :=
  let sortedValues := sortByCmp descIntLe (cards.map (fun c => RANK_TO_VALUE c.rank))
  let groups := sortByCmp groupLe (tally sortedValues)
  let isFlush := (cards.map Card.suit).eraseDups.length == 1
  let unique := sortByCmp descIntLe sortedValues.eraseDups
  let sh := findStraightHigh unique
  let straightHigh : Int :=
    if sh == 0 && (unique.contains 14 && unique.contains 5 && unique.contains 4 &&
        unique.contains 3 && unique.contains 2) then 5 else sh
  let g0 := groups.getD 0 (0, 0)
  let g1 := groups.getD 1 (0, 0)
  let g2 := groups.getD 2 (0, 0)
  if isFlush && straightHigh != 0 then
    { category := .straight_flush, scoreVector := [8, straightHigh], label := "Straight Flush" }
  else if g0.2 == 4 then
    { category := .four_of_a_kind, scoreVector := [7, g0.1, g1.1], label := "Four of a Kind" }
  else if g0.2 == 3 && g1.2 == 2 then
    { category := .full_house, scoreVector := [6, g0.1, g1.1], label := "Full House" }
  else if isFlush then
    { category := .flush, scoreVector := 5 :: sortedValues, label := "Flush" }
  else if straightHigh != 0 then
    { category := .straight, scoreVector := [4, straightHigh], label := "Straight" }
  else if g0.2 == 3 then
    { category := .three_of_a_kind,
      scoreVector := 3 :: g0.1 :: sortByCmp descIntLe ((groups.drop 1).map Prod.fst),
      label := "Three of a Kind" }
  else if g0.2 == 2 && g1.2 == 2 then
    { category := .two_pair, scoreVector := [2, max g0.1 g1.1, min g0.1 g1.1, g2.1],
      label := "Two Pair" }
  else if g0.2 == 2 then
    { category := .pair,
      scoreVector := 1 :: g0.1 :: sortByCmp descIntLe ((groups.drop 1).map Prod.fst),
      label := "Pair" }
  else
    { category := .high_card, scoreVector := 0 :: sortedValues, label := "High Card" }

/-- All length-`n` sublists in the index order of the evaluator's nested
loops: quintuples `a < b < c < d < e` enumerated lexicographically. -/
def combs : Nat → List α → List (List α)
  | 0, _ => [[]]
  | _ + 1, [] => []
  | n + 1, x :: xs => ((combs n xs).map (fun t => x :: t)) ++ combs (n + 1) xs

/-- The running `best` of `evaluateBestHand`: start with the first
candidate, replace on strictly better score. -/
def bestOf (first : List Card) (rest : List (List Card)) : HandScore :=
  rest.foldl
    (fun best l =>
      if compareScoreVectors (evaluateFive l).scoreVector best.scoreVector > 0 then
        evaluateFive l
      else best)
    (evaluateFive first)

/-- `evaluateBestHand` of the hold'em module.  The five nested loops
enumerate exactly the 5-element sublists in the order of `combs 5`. -/
def evaluateBestHand (cards : List Card) : Except String HandScore :=
  if cards.length < 5 ∨ 7 < cards.length then
    .error "Holdem hand evaluation requires between 5 and 7 cards"
  else
    match combs 5 cards with
    | [] => .error "Failed to evaluate hand"
    | first :: rest => .ok (bestOf first rest)

theorem mem_combs : ∀ (n : Nat) (xs l : List α),
    l ∈ combs n xs ↔ l.length = n ∧ l.Sublist xs := by
  intro n xs
  induction xs generalizing n with
  | nil =>
      intro l
      cases n with
      | zero =>
          simp only [combs, List.mem_singleton]
          constructor
          · rintro rfl; exact ⟨rfl, List.Sublist.refl []⟩
          · rintro ⟨hl, hs⟩; exact List.length_eq_zero.mp hl
      | succ n =>
          simp only [combs, List.not_mem_nil, false_iff, not_and]
          intro hl hs
          have := hs.length_le
          simp only [List.length_nil] at this
          omega
  | cons x xs ih =>
      intro l
      cases n with
      | zero =>
          simp only [combs, List.mem_singleton]
          constructor
          · rintro rfl; exact ⟨rfl, List.nil_sublist _⟩
          · rintro ⟨hl, _⟩; exact List.length_eq_zero.mp hl
      | succ n =>
          simp only [combs, List.mem_append, List.mem_map]
          constructor
          · rintro (⟨t, ht, rfl⟩ | h)
            · rcases (ih n t).mp ht with ⟨hlen, hsub⟩
              exact ⟨by simp [hlen], hsub.cons₂ x⟩
            · rcases (ih (n + 1) l).mp h with ⟨hlen, hsub⟩
              exact ⟨hlen, hsub.cons x⟩
          · rintro ⟨hlen, hsub⟩
            rcases List.sublist_cons_iff.mp hsub with htail | ⟨r, rfl, htail⟩
            · right
              exact (ih (n + 1) l).mpr ⟨hlen, htail⟩
            · left
              exact ⟨r, (ih n r).mpr ⟨by simpa using hlen, htail⟩, rfl⟩

theorem bestOf_mem (first : List Card) (rest : List (List Card)) :
    bestOf first rest = evaluateFive first ∨
      ∃ l ∈ rest, bestOf first rest = evaluateFive l := by
  unfold bestOf
  generalize evaluateFive first = acc
  clear first
  induction rest generalizing acc with
  | nil => left; rfl
  | cons c cs ih =>
      simp only [List.foldl_cons]
      by_cases h : compareScoreVectors (evaluateFive c).scoreVector acc.scoreVector > 0
      · simp only [h, if_pos]
        rcases ih (evaluateFive c) with h' | ⟨l, hl, h'⟩
        · right; exact ⟨c, by simp, h'⟩
        · right; exact ⟨l, by simp [hl], h'⟩
      · simp only [if_neg h]
        rcases ih acc with h' | ⟨l, hl, h'⟩
        · left; exact h'
        · right; exact ⟨l, by simp [hl], h'⟩

theorem bestOf_ge (first : List Card) (rest : List (List Card)) :
    compareScoreVectors (evaluateFive first).scoreVector (bestOf first rest).scoreVector ≤ 0 ∧
      ∀ l ∈ rest,
        compareScoreVectors (evaluateFive l).scoreVector (bestOf first rest).scoreVector ≤ 0 := by
  unfold bestOf
  generalize evaluateFive first = acc
  clear first
  induction rest generalizing acc with
  | nil =>
      refine ⟨by simp [compareScoreVectors_refl], by simp⟩
  | cons c cs ih =>
      simp only [List.foldl_cons]
      by_cases h : compareScoreVectors (evaluateFive c).scoreVector acc.scoreVector > 0
      · simp only [h, if_pos]
        rcases ih (evaluateFive c) with ⟨hacc, hall⟩
        have hc : compareScoreVectors acc.scoreVector (evaluateFive c).scoreVector ≤ 0 := by
          rw [compareScoreVectors_swap]
          omega
        refine ⟨compareScoreVectors_le_trans hc hacc, ?_⟩
        intro l hl
        rcases List.mem_cons.mp hl with rfl | hl
        · exact hacc
        · exact hall l hl
      · simp only [if_neg h]
        rcases ih acc with ⟨hacc, hall⟩
        refine ⟨hacc, ?_⟩
        intro l hl
        rcases List.mem_cons.mp hl with rfl | hl
        · exact compareScoreVectors_le_trans (by omega) hacc
        · exact hall l hl

/-! ## Betting engine (betting package) -/

/-- Betting phase label. -/
inductive BettingPhase
  | preflop | flop | turn | river
deriving DecidableEq, Repr

/-- A seat given to `createBettingState`. -/
structure BettingSeat where
  playerId : String
  stack : Int
deriving DecidableEq, Repr

/-- A forced bet (blind / ante). -/
structure ForcedBet where
  playerId : String
  amount : Int
  reason : Option String
deriving DecidableEq, Repr

/-- `BettingConfig`; absent optional fields are `none` (`?? []` for
`forcedBets`). -/
structure BettingConfig where
  phase : BettingPhase
  seats : List BettingSeat
  forcedBets : List ForcedBet
  firstToActPlayerId : Option String
  minOpenBet : Option Int
deriving Repr

/-- A pot layer. -/
structure Pot where
  amount : Int
  eligiblePlayerIds : List String
deriving DecidableEq, Repr

/-- `BettingState` of the betting package.  The per-player records keep key
set `seatOrder`; under the `PMap` model the base value (0 / false) stands
for the absent keys the source never reads without a `??` default. -/
structure BettingState where
  phase : BettingPhase
  seatOrder : List String
  activePlayerId : Option String
  foldedByPlayerId : PMap Bool
  allInByPlayerId : PMap Bool
  stackByPlayerId : PMap Int
  roundContributionByPlayerId : PMap Int
  totalContributionByPlayerId : PMap Int
  hasActedByPlayerId : PMap Bool
  currentBet : Int
  minRaiseIncrement : Int
  minOpenBet : Int
  roundClosed : Bool
  pots : List Pot
  actionLog : List String

/-- Betting actions. -/
inductive BettingAction
  | fold
  | check
  | call
  | bet (amount : Int)
  | raise (toAmount : Int)
  | all_in
deriving DecidableEq, Repr

/-- `BettingResult`: `{ ok: true, state }` or `{ ok: false, error }` (and
the engine's thrown `Error`s, carried with their message). -/
abbrev BettingResult := Except String BettingState

/-- `activeNonFoldedPlayers`. -/
def activeNonFoldedPlayers (s : BettingState) : List String :=
  s.seatOrder.filter (fun q => !s.foldedByPlayerId q)

/-- `canStillAct`. -/
def canStillAct (s : BettingState) (q : String) : Bool :=
  !s.foldedByPlayerId q && !s.allInByPlayerId q && decide (s.stackByPlayerId q > 0)

/-- `playerNeedsAction`. -/
def playerNeedsAction (s : BettingState) (q : String) : Bool :=
  if !canStillAct s q then false
  else if s.roundContributionByPlayerId q < s.currentBet then true
  else !s.hasActedByPlayerId q

/-- JavaScript `Array.prototype.indexOf`: position of `x`, `-1` if absent. -/
def jsIndexOf (l : List String) (x : String) : Int :=
  match l.findIdx? (fun q => q == x) with
  | some i => (i : Int)
  | none => -1

/-- `findNextPlayerNeedingAction`: scan `totalSeats` steps clockwise from
the seat after `afterPlayerId` (`startIndex = -1` when null). -/
def findNextPlayerNeedingAction (s : BettingState) (afterPlayerId : Option String) :
    Option String :=
  let startIndex : Int := match afterPlayerId with
    | some p => jsIndexOf s.seatOrder p
    | none => -1
  let total := s.seatOrder.length
  ((List.range total).map
      (fun k => s.seatOrder.getD (((startIndex + (k + 1) + total) % total).toNat) "")).find?
    (fun q => playerNeedsAction s q)

/-- `remaining[p] -= level` over the positive contributors (a left fold of
keyed updates, duplicate keys subtracting repeatedly like the source loop
would). -/
def subtractLevel (remaining : PMap Int) (positives : List String) (level : Int) : PMap Int :=
  positives.foldl (fun m q => setKey m q (m q - level)) remaining

theorem subtractLevel_apply (positives : List String) (remaining : PMap Int)
    (level : Int) (x : String) :
    subtractLevel remaining positives level x =
      remaining x - (positives.count x) * level := by
  induction positives generalizing remaining with
  | nil => simp [subtractLevel]
  | cons q qs ih =>
      simp only [subtractLevel, List.foldl_cons] at *
      rw [ih]
      by_cases hx : x = q
      · subst hx
        rw [setKey_same]
        have hc : (x :: qs).count x = qs.count x + 1 := by
          simp [List.count_cons]
        rw [hc]
        push_cast
        ring
      · rw [setKey_other _ _ _ _ hx]
        have hc : (q :: qs).count x = qs.count x := by
          simp [List.count_cons, hx]
        rw [hc]

/-- `level`: minimum remaining contribution over the (nonempty) positive
contributors; the source starts from `+∞`, which over `hd :: tl` equals a
fold from the head. -/
def foldMin (remaining : PMap Int) (hd : String) (tl : List String) : Int :=
  tl.foldl (fun acc q => min acc (remaining q)) (remaining hd)

theorem foldMin_le (remaining : PMap Int) (hd : String) (tl : List String) :
    ∀ q ∈ hd :: tl, foldMin remaining hd tl ≤ remaining q := by
  have key : ∀ (l : List String) (init : Int),
      (l.foldl (fun acc q => min acc (remaining q)) init ≤ init) ∧
        ∀ q ∈ l, l.foldl (fun acc q => min acc (remaining q)) init ≤ remaining q := by
    intro l
    induction l with
    | nil => intro init; exact ⟨le_rfl, by simp⟩
    | cons a as ih =>
        intro init
        rcases ih (min init (remaining a)) with ⟨h1, h2⟩
        constructor
        · exact le_trans h1 (min_le_left _ _)
        · intro q hq
          rcases List.mem_cons.mp hq with rfl | hq
          · exact le_trans h1 (min_le_right _ _)
          · exact h2 q hq
  intro q hq
  rcases List.mem_cons.mp hq with rfl | hq
  · exact (key tl (remaining q)).1
  · exact (key tl (remaining hd)).2 q hq

theorem foldMin_mem (remaining : PMap Int) (hd : String) (tl : List String) :
    ∃ q ∈ hd :: tl, foldMin remaining hd tl = remaining q := by
  have key : ∀ (l : List String) (init : Int),
      l.foldl (fun acc q => min acc (remaining q)) init = init ∨
        ∃ q ∈ l, l.foldl (fun acc q => min acc (remaining q)) init = remaining q := by
    intro l
    induction l with
    | nil => intro init; left; rfl
    | cons a as ih =>
        intro init
        rcases ih (min init (remaining a)) with h | ⟨q, hq, h⟩
        · simp only [List.foldl_cons, h]
          rcases min_choice init (remaining a) with hm | hm
          · left; exact hm
          · right; exact ⟨a, by simp, hm⟩
        · right; exact ⟨q, by simp [hq], h⟩
  rcases key tl (remaining hd) with h | ⟨q, hq, h⟩
  · exact ⟨hd, by simp, h⟩
  · exact ⟨q, by simp [hq], h⟩

theorem length_filter_mono {l : List α} {p q : α → Bool}
    (himp : ∀ a ∈ l, q a = true → p a = true) :
    (l.filter q).length ≤ (l.filter p).length := by
  induction l with
  | nil => simp
  | cons a t ih =>
      have iht := ih (fun x hx h => himp x (by simp [hx]) h)
      by_cases hq : q a = true
      · have hp : p a = true := himp a (by simp) hq
        simp only [List.filter_cons, hq, hp, if_true, List.length_cons]
        omega
      · have hq' : q a = false := by simpa using hq
        by_cases hp : p a = true
        · simp only [List.filter_cons, hq', hp, if_true, Bool.false_eq_true, if_false,
            List.length_cons]
          omega
        · have hp' : p a = false := by simpa using hp
          simp only [List.filter_cons, hq', hp', Bool.false_eq_true, if_false]
          exact iht

theorem length_filter_lt {l : List α} {p q : α → Bool}
    (himp : ∀ a ∈ l, q a = true → p a = true) {x : α} (hx : x ∈ l)
    (hpx : p x = true) (hqx : q x = false) :
    (l.filter q).length < (l.filter p).length := by
  induction l with
  | nil => simp at hx
  | cons a t ih =>
      have hmono : (t.filter q).length ≤ (t.filter p).length :=
        length_filter_mono (fun y hy h => himp y (by simp [hy]) h)
      rcases List.mem_cons.mp hx with rfl | hx
      · simp only [List.filter_cons, hpx, hqx, if_true, Bool.false_eq_true, if_false,
          List.length_cons]
        omega
      · have iht := ih (fun y hy h => himp y (by simp [hy]) h) hx
        by_cases hq : q a = true
        · have hp : p a = true := himp a (by simp) hq
          simp only [List.filter_cons, hq, hp, if_true, List.length_cons]
          omega
        · have hq' : q a = false := by simpa using hq
          by_cases hp : p a = true
          · simp only [List.filter_cons, hq', hp, if_true, Bool.false_eq_true, if_false,
              List.length_cons]
            omega
          · have hp' : p a = false := by simpa using hp
            simp only [List.filter_cons, hq', hp', Bool.false_eq_true, if_false]
            exact iht

/-- One step of the `buildPots` measure: peeling the lowest positive level
strictly shrinks the set of positive contributors. -/
theorem buildPots_step_decreases (remaining : PMap Int) (seatOrder : List String)
    (hd : String) (tl : List String)
    (h : seatOrder.filter (fun q => decide (0 < remaining q)) = hd :: tl) :
    (seatOrder.filter (fun q =>
        decide (0 < subtractLevel remaining (hd :: tl) (foldMin remaining hd tl) q))).length <
      (hd :: tl).length := by
  have hpos : ∀ q ∈ hd :: tl, (0 : Int) < remaining q := by
    intro q hq
    have hmem : q ∈ seatOrder.filter (fun q => decide (0 < remaining q)) := h ▸ hq
    have := List.of_mem_filter hmem
    simpa using this
  have hlevel_pos : 0 < foldMin remaining hd tl := by
    rcases foldMin_mem remaining hd tl with ⟨q, hq, hmin⟩
    rw [hmin]
    exact hpos q hq
  have himp : ∀ q ∈ seatOrder,
      (decide (0 < subtractLevel remaining (hd :: tl) (foldMin remaining hd tl) q)) = true →
      (decide (0 < remaining q)) = true := by
    intro q _ hq
    rw [decide_eq_true_iff] at *
    rw [subtractLevel_apply] at hq
    have hcnt : (0 : Int) ≤ ((hd :: tl).count q : Int) * foldMin remaining hd tl := by
      positivity
    omega
  rcases foldMin_mem remaining hd tl with ⟨q₀, hq₀, hmin⟩
  have hq₀seat : q₀ ∈ seatOrder := by
    have : q₀ ∈ seatOrder.filter (fun q => decide (0 < remaining q)) := h ▸ hq₀
    exact List.mem_of_mem_filter this
  have hq₀p : (decide (0 < remaining q₀)) = true := by
    rw [decide_eq_true_iff]
    exact hpos q₀ hq₀
  have hq₀q :
      (decide (0 < subtractLevel remaining (hd :: tl) (foldMin remaining hd tl) q₀)) = false := by
    rw [decide_eq_false_iff_not]
    rw [subtractLevel_apply]
    have hcnt1 : 1 ≤ (hd :: tl).count q₀ := List.count_pos_iff.mpr hq₀
    have : ((hd :: tl).count q₀ : Int) * foldMin remaining hd tl ≥
        1 * foldMin remaining hd tl := by
      apply mul_le_mul_of_nonneg_right
      · exact_mod_cast hcnt1
      · omega
    omega
  have := length_filter_lt himp hq₀seat hq₀p hq₀q
  calc (seatOrder.filter (fun q =>
          decide (0 < subtractLevel remaining (hd :: tl) (foldMin remaining hd tl) q))).length
      < (seatOrder.filter (fun q => decide (0 < remaining q))).length := this
    _ = (hd :: tl).length := by rw [h]

/-- `buildPots` loop body (`while (true)` of the source): peel the lowest
positive contribution level into one pot and recurse.  The loop terminates
because the number of positive contributors strictly shrinks
(`buildPots_step_decreases`); it is given that number of iterations as
structural fuel, `buildPotsGo_fuel` below showing any sufficient fuel
computes the same list, so `buildPots` (fuel `seatOrder.length`) is the
loop's value. -/
def buildPotsGo (folded : PMap Bool) (seatOrder : List String) :
    Nat → PMap Int → List Pot
  | 0, _ => []
  | fuel + 1, remaining =>
      match seatOrder.filter (fun q => decide (0 < remaining q)) with
      | [] => []
      | hd :: tl =>
          let level := foldMin remaining hd tl
          let amount := level * ((hd :: tl).length : Int)
          let eligiblePlayerIds := (hd :: tl).filter (fun q => !folded q)
          let remaining' := subtractLevel remaining (hd :: tl) level
          { amount := amount, eligiblePlayerIds := eligiblePlayerIds } ::
            buildPotsGo folded seatOrder fuel remaining'

theorem buildPotsGo_fuel (folded : PMap Bool) (seatOrder : List String) :
    ∀ (fuel₁ fuel₂ : Nat) (remaining : PMap Int),
      (seatOrder.filter (fun q => decide (0 < remaining q))).length ≤ fuel₁ →
      (seatOrder.filter (fun q => decide (0 < remaining q))).length ≤ fuel₂ →
      buildPotsGo folded seatOrder fuel₁ remaining =
        buildPotsGo folded seatOrder fuel₂ remaining := by
  intro fuel₁
  induction fuel₁ with
  | zero =>
      intro fuel₂ remaining h₁ h₂
      have hnil : seatOrder.filter (fun q => decide (0 < remaining q)) = [] :=
        List.length_eq_zero.mp (by omega)
      cases fuel₂ with
      | zero => rfl
      | succ f => simp [buildPotsGo, hnil]
  | succ f₁ ih =>
      intro fuel₂ remaining h₁ h₂
      cases fuel₂ with
      | zero =>
          have hnil : seatOrder.filter (fun q => decide (0 < remaining q)) = [] :=
            List.length_eq_zero.mp (by omega)
          simp [buildPotsGo, hnil]
      | succ f₂ =>
          simp only [buildPotsGo]
          match hfil : seatOrder.filter (fun q => decide (0 < remaining q)) with
          | [] => rfl
          | hd :: tl =>
              have hdec := buildPots_step_decreases remaining seatOrder hd tl hfil
              have hlen : (hd :: tl).length ≤ f₁ + 1 := hfil ▸ h₁
              have hlen₂ : (hd :: tl).length ≤ f₂ + 1 := hfil ▸ h₂
              simp only [List.cons.injEq, true_and]
              exact ih f₂ _ (by omega) (by omega)

/-- `buildPots` (exported as `buildSidePots`).  The source copies
`totalContributionByPlayerId ?? 0` into `remaining`; under the `PMap` model
that copy is the map itself.  The fuel `seatOrder.length` bounds the
iteration count, which never exceeds the number of positive contributors. -/
def buildPots (totalContributionByPlayerId : PMap Int) (foldedByPlayerId : PMap Bool)
    (seatOrder : List String) : List Pot :=
  buildPotsGo foldedByPlayerId seatOrder seatOrder.length totalContributionByPlayerId

/-- `evaluateRound`. -/
def evaluateRound (s : BettingState) (lastActorId : Option String) : BettingState :=
  let nonFolded := activeNonFoldedPlayers s
  let nonFoldedThatCanAct := nonFolded.filter (fun q => canStillAct s q)
  if nonFolded.length ≤ 1 ∨ nonFoldedThatCanAct.length = 0 then
    { s with activePlayerId := none, roundClosed := true,
             pots := buildPots s.totalContributionByPlayerId s.foldedByPlayerId s.seatOrder }
  else
    match findNextPlayerNeedingAction s lastActorId with
    | none =>
        { s with activePlayerId := none, roundClosed := true,
                 pots := buildPots s.totalContributionByPlayerId s.foldedByPlayerId s.seatOrder }
    | some nextPlayer =>
        { s with activePlayerId := some nextPlayer, roundClosed := false,
                 pots := buildPots s.totalContributionByPlayerId s.foldedByPlayerId s.seatOrder }

/-- `postContribution` (record clones are value copies under `PMap`). -/
def postContribution (s : BettingState) (playerId : String) (amount : Int) : BettingState :=
  let stackByPlayerId :=
    setKey s.stackByPlayerId playerId (s.stackByPlayerId playerId - amount)
  let roundContributionByPlayerId :=
    setKey s.roundContributionByPlayerId playerId
      (s.roundContributionByPlayerId playerId + amount)
  let totalContributionByPlayerId :=
    setKey s.totalContributionByPlayerId playerId
      (s.totalContributionByPlayerId playerId + amount)
  let allInByPlayerId :=
    if stackByPlayerId playerId = 0 then setKey s.allInByPlayerId playerId true
    else s.allInByPlayerId
  { s with stackByPlayerId := stackByPlayerId,
           roundContributionByPlayerId := roundContributionByPlayerId,
           totalContributionByPlayerId := totalContributionByPlayerId,
           allInByPlayerId := allInByPlayerId }

/-- `resetHasActedForReopen`: the actor keeps `hasActed = true`, every other
seat gets `hasActed = !canStillAct`. -/
def resetHasActedForReopen (s : BettingState) (actorId : String) : PMap Bool :=
  s.seatOrder.foldl
    (fun m q => if q = actorId then setKey m q true else setKey m q (!canStillAct s q))
    s.hasActedByPlayerId

theorem resetHasActedForReopen_apply (s : BettingState) (actorId x : String) :
    resetHasActedForReopen s actorId x =
      if x ∈ s.seatOrder then (if x = actorId then true else !canStillAct s x)
      else s.hasActedByPlayerId x := by
  unfold resetHasActedForReopen
  generalize hm : s.hasActedByPlayerId = m
  clear hm
  induction s.seatOrder generalizing m with
  | nil => simp
  | cons q qs ih =>
      simp only [List.foldl_cons]
      rw [ih]
      by_cases hmem : x ∈ qs
      · simp [List.mem_cons, hmem]
      · by_cases hxq : x = q
        · subst hxq
          by_cases hxa : x = actorId
          · simp [hmem, hxa, setKey_same]
          · simp [hmem, hxa, setKey_same]
        · have hstep : (if q = actorId then setKey m q true
              else setKey m q (!canStillAct s q)) x = m x := by
            by_cases hqa : q = actorId
            · subst hqa
              simp [setKey_other m _ _ x hxq]
            · simp [hqa, setKey_other m _ _ x hxq]
          simp [hmem, hxq, hstep]

/-- Accumulator of the seat-registration loop of `createBettingState`. -/
structure SeatInit where
  seatOrder : List String
  stackByPlayerId : PMap Int
  roundContributionByPlayerId : PMap Int
  totalContributionByPlayerId : PMap Int
  foldedByPlayerId : PMap Bool
  allInByPlayerId : PMap Bool
  hasActedByPlayerId : PMap Bool

/-- The `for (const seat of config.seats)` loop of `createBettingState`:
rejects duplicates, rejects negative stacks (`assertPositiveInteger`), and
registers each seat. -/
def initSeatsGo (acc : SeatInit) : List BettingSeat → Except String SeatInit
  | [] => .ok acc
  | seat :: rest =>
      if seat.playerId ∈ acc.seatOrder then
        .error ("Duplicate playerId: " ++ seat.playerId)
      else if seat.stack < 0 then
        .error ("stack for " ++ seat.playerId ++ " must be a non-negative integer")
      else
        initSeatsGo
          { seatOrder := acc.seatOrder ++ [seat.playerId],
            stackByPlayerId := setKey acc.stackByPlayerId seat.playerId seat.stack,
            roundContributionByPlayerId :=
              setKey acc.roundContributionByPlayerId seat.playerId 0,
            totalContributionByPlayerId :=
              setKey acc.totalContributionByPlayerId seat.playerId 0,
            foldedByPlayerId := setKey acc.foldedByPlayerId seat.playerId false,
            allInByPlayerId :=
              setKey acc.allInByPlayerId seat.playerId (decide (seat.stack = 0)),
            hasActedByPlayerId := setKey acc.hasActedByPlayerId seat.playerId false }
          rest

/-- The `for (const forcedBet of ...)` loop of `createBettingState`: check
membership, check the amount, post `min(available, amount)` and log it. -/
def applyForcedBets (s : BettingState) : List ForcedBet → Except String BettingState
  | [] => .ok s
  | fb :: rest =>
      if fb.playerId ∉ s.seatOrder then
        .error ("Forced bet player not found: " ++ fb.playerId)
      else if fb.amount < 0 then
        .error ("forced bet amount for " ++ fb.playerId ++ " must be a non-negative integer")
      else
        let available := s.stackByPlayerId fb.playerId
        let posted := min available fb.amount
        let s' := postContribution s fb.playerId posted
        let s'' :=
          { s' with actionLog := s'.actionLog ++
              [fb.playerId ++ " posts " ++ toString posted ++
                (match fb.reason with
                 | some r => " (" ++ r ++ ")"
                 | none => "")] }
        applyForcedBets s'' rest

/-- `createBettingState`.  JavaScript string truthiness: an empty
`firstToActPlayerId` is falsy, hence the `f ≠ ""` guards. -/
def createBettingState (config : BettingConfig) : Except String BettingState :=
  if config.seats.length < 2 then .error "At least two seats are required"
  else do
    let init ← initSeatsGo
      { seatOrder := [], stackByPlayerId := fun _ => 0,
        roundContributionByPlayerId := fun _ => 0,
        totalContributionByPlayerId := fun _ => 0,
        foldedByPlayerId := fun _ => false, allInByPlayerId := fun _ => false,
        hasActedByPlayerId := fun _ => false } config.seats
    let mOpen := max 1 (config.minOpenBet.getD 1)
    let state0 : BettingState :=
      { phase := config.phase, seatOrder := init.seatOrder, activePlayerId := none,
        foldedByPlayerId := init.foldedByPlayerId,
        allInByPlayerId := init.allInByPlayerId,
        stackByPlayerId := init.stackByPlayerId,
        roundContributionByPlayerId := init.roundContributionByPlayerId,
        totalContributionByPlayerId := init.totalContributionByPlayerId,
        hasActedByPlayerId := init.hasActedByPlayerId,
        currentBet := 0, minRaiseIncrement := mOpen, minOpenBet := mOpen,
        roundClosed := false, pots := [], actionLog := [] }
    let state1 ← applyForcedBets state0 config.forcedBets
    let currentBet := state1.seatOrder.foldl
      (fun cb q => max cb (state1.roundContributionByPlayerId q)) 0
    let state2 := { state1 with currentBet := currentBet }
    let state3 :=
      if currentBet > 0 then
        { state2 with minRaiseIncrement := max state2.minRaiseIncrement currentBet }
      else state2
    let first : Option String :=
      match config.firstToActPlayerId with
      | some f =>
          if f ≠ "" ∧ f ∈ state3.seatOrder then some f
          else findNextPlayerNeedingAction state3 none
      | none => findNextPlayerNeedingAction state3 none
    let state4 :=
      { state3 with
        activePlayerId := first,
        pots := buildPots state3.totalContributionByPlayerId state3.foldedByPlayerId
          state3.seatOrder }
    match first with
    | some f =>
        if f ≠ "" ∧ playerNeedsAction state4 f = true then
          .ok { state4 with roundClosed := false }
        else .ok (evaluateRound state4 none)
    | none => .ok (evaluateRound state4 none)

/-- The legal-action summary returned by `getAvailableActions`. -/
structure AvailableActions where
  canFold : Bool
  canCheck : Bool
  canCall : Bool
  canBet : Bool
  canRaise : Bool
  canAllIn : Bool
  callAmount : Int
  minBet : Int
  minRaiseTo : Int
deriving DecidableEq, Repr

/-- `getAvailableActions`. -/
def getAvailableActions (s : BettingState) (playerId : String) : AvailableActions :=
  let contribution := s.roundContributionByPlayerId playerId
  let stack := s.stackByPlayerId playerId
  let callAmount := max 0 (s.currentBet - contribution)
  let canAct := s.activePlayerId == some playerId && !s.roundClosed &&
    !s.foldedByPlayerId playerId && !s.allInByPlayerId playerId && decide (stack > 0)
  let minBet := max s.minOpenBet s.minRaiseIncrement
  let minRaiseTo := s.currentBet + s.minRaiseIncrement
  if !canAct then
    { canFold := false, canCheck := false, canCall := false, canBet := false,
      canRaise := false, canAllIn := false, callAmount := callAmount,
      minBet := minBet, minRaiseTo := minRaiseTo }
  else
    { canFold := true,
      canCheck := decide (callAmount = 0),
      canCall := decide (callAmount > 0) && decide (stack > 0),
      canBet := decide (s.currentBet = 0) && decide (stack ≥ minBet),
      canRaise := decide (s.currentBet > 0) && decide (contribution + stack ≥ minRaiseTo),
      canAllIn := decide (stack > 0),
      callAmount := callAmount, minBet := minBet, minRaiseTo := minRaiseTo }

/-- `validateTurn`: `none` means the turn is valid, `some e` is the
failure message. -/
def validateTurn (s : BettingState) (playerId : String) : Option String :=
  if playerId ∉ s.seatOrder then some ("Unknown player: " ++ playerId)
  else if s.roundClosed then some "Round is already closed"
  else if s.activePlayerId ≠ some playerId then some "It is not this player\x27s turn"
  else if s.foldedByPlayerId playerId then some "Player has already folded"
  else if s.allInByPlayerId playerId then some "Player is already all-in"
  else if s.stackByPlayerId playerId ≤ 0 then some "Player has no chips remaining"
  else none

/-- The body of `applyBettingAction` for the five basic actions.  The
source first clones every per-player record into `nextState`; under the
`PMap` model those copies are the maps themselves, and each branch below
applies the same field updates in source order.  The `all_in` branch of the
source re-enters `applyBettingAction` itself with a `bet`/`call`/`raise`
action; that one-level recursion is expanded in `applyBettingAction` below
(the re-entry re-runs `validateTurn` on the same pure inputs with the same
`none` outcome, so dispatching straight into this body is the same
function), which leaves the source's trailing `Unsupported action` fallback
as this function's `all_in` arm. -/
def applyBettingActionCore (s : BettingState) (playerId : String) (action : BettingAction) :
    BettingResult :=
  match validateTurn s playerId with
  | some e => .error e
  | none =>
    let contribution := s.roundContributionByPlayerId playerId
    let stack := s.stackByPlayerId playerId
    let callAmount := max 0 (s.currentBet - contribution)
    match action with
    | .fold =>
        let s1 := { s with
          foldedByPlayerId := setKey s.foldedByPlayerId playerId true,
          hasActedByPlayerId := setKey s.hasActedByPlayerId playerId true,
          actionLog := s.actionLog ++ [playerId ++ " folds"] }
        .ok (evaluateRound s1 (some playerId))
    | .check =>
        if callAmount ≠ 0 then .error "Cannot check when facing a bet"
        else
          let s1 := { s with
            hasActedByPlayerId := setKey s.hasActedByPlayerId playerId true,
            actionLog := s.actionLog ++ [playerId ++ " checks"] }
          .ok (evaluateRound s1 (some playerId))
    | .call =>
        if callAmount = 0 then .error "Nothing to call"
        else
          let paid := min stack callAmount
          if paid ≤ 0 then .error "No chips available to call"
          else
            let stackByPlayerId := setKey s.stackByPlayerId playerId (stack - paid)
            let s1 := { s with
              stackByPlayerId := stackByPlayerId,
              roundContributionByPlayerId :=
                setKey s.roundContributionByPlayerId playerId (contribution + paid),
              totalContributionByPlayerId :=
                setKey s.totalContributionByPlayerId playerId
                  (s.totalContributionByPlayerId playerId + paid),
              hasActedByPlayerId := setKey s.hasActedByPlayerId playerId true,
              allInByPlayerId :=
                if stackByPlayerId playerId = 0 then setKey s.allInByPlayerId playerId true
                else s.allInByPlayerId,
              actionLog := s.actionLog ++ [playerId ++ " calls " ++ toString paid] }
            .ok (evaluateRound s1 (some playerId))
    | .bet amount =>
        if amount < 0 then .error "bet amount must be a non-negative integer"
        else if s.currentBet ≠ 0 then .error "Cannot bet after a bet already exists, use raise"
        else if amount > stack then .error "Bet exceeds stack"
        else
          let isAllIn := amount = stack
          let minBet := max s.minOpenBet s.minRaiseIncrement
          if ¬isAllIn ∧ amount < minBet then .error ("Minimum bet is " ++ toString minBet)
          else
            let stackByPlayerId := setKey s.stackByPlayerId playerId (stack - amount)
            let roundContributionByPlayerId :=
              setKey s.roundContributionByPlayerId playerId (contribution + amount)
            let s1 := { s with
              stackByPlayerId := stackByPlayerId,
              roundContributionByPlayerId := roundContributionByPlayerId,
              totalContributionByPlayerId :=
                setKey s.totalContributionByPlayerId playerId
                  (s.totalContributionByPlayerId playerId + amount),
              currentBet := roundContributionByPlayerId playerId,
              allInByPlayerId :=
                if stackByPlayerId playerId = 0 then setKey s.allInByPlayerId playerId true
                else s.allInByPlayerId,
              minRaiseIncrement :=
                if amount ≥ s.minRaiseIncrement then amount else s.minRaiseIncrement }
            let s2 := { s1 with
              hasActedByPlayerId := resetHasActedForReopen s1 playerId,
              actionLog := s.actionLog ++ [playerId ++ " bets " ++ toString amount] }
            .ok (evaluateRound s2 (some playerId))
    | .raise toAmount =>
        if toAmount < 0 then .error "raise toAmount must be a non-negative integer"
        else if s.currentBet = 0 then .error "Cannot raise when there is no bet, use bet"
        else if toAmount ≤ s.currentBet then .error "Raise must increase the current bet"
        else
          let additional := toAmount - contribution
          if additional ≤ 0 then .error "Raise target is too small for this player contribution"
          else if additional > stack then .error "Raise exceeds stack"
          else
            let raiseIncrement := toAmount - s.currentBet
            let isAllIn := additional = stack
            if ¬isAllIn ∧ raiseIncrement < s.minRaiseIncrement then
              .error ("Minimum raise increment is " ++ toString s.minRaiseIncrement)
            else
              let stackByPlayerId := setKey s.stackByPlayerId playerId (stack - additional)
              let s1 := { s with
                stackByPlayerId := stackByPlayerId,
                roundContributionByPlayerId :=
                  setKey s.roundContributionByPlayerId playerId (contribution + additional),
                totalContributionByPlayerId :=
                  setKey s.totalContributionByPlayerId playerId
                    (s.totalContributionByPlayerId playerId + additional),
                currentBet := max s.currentBet toAmount,
                allInByPlayerId :=
                  if stackByPlayerId playerId = 0 then setKey s.allInByPlayerId playerId true
                  else s.allInByPlayerId,
                minRaiseIncrement :=
                  if raiseIncrement ≥ s.minRaiseIncrement then raiseIncrement
                  else s.minRaiseIncrement }
              let s2 := { s1 with
                hasActedByPlayerId := resetHasActedForReopen s1 playerId,
                actionLog := s.actionLog ++ [playerId ++ " raises to " ++ toString toAmount] }
              .ok (evaluateRound s2 (some playerId))
    | .all_in => .error "Unsupported action"

/-- `applyBettingAction`: the `all_in` sugar dispatches to `bet`, `call`
or `raise` (see the note on `applyBettingActionCore`). -/
def applyBettingAction (s : BettingState) (playerId : String) (action : BettingAction) :
    BettingResult :=
  match action with
  | .all_in =>
      (match validateTurn s playerId with
       | some e => .error e
       | none =>
         let contribution := s.roundContributionByPlayerId playerId
         let stack := s.stackByPlayerId playerId
         let allInAmount := stack
         if allInAmount ≤ 0 then .error "No chips available for all-in"
         else if s.currentBet = 0 then applyBettingActionCore s playerId (.bet allInAmount)
         else
           let target := contribution + allInAmount
           if target ≤ s.currentBet then applyBettingActionCore s playerId .call
           else applyBettingActionCore s playerId (.raise target))
  | a => applyBettingActionCore s playerId a

/-- `isRoundClosed`. -/
def isRoundClosed (s : BettingState) : Bool :=
  s.roundClosed

/-- The summary returned by `getBettingStatus`. -/
structure BettingStatus where
  activePlayerId : Option String
  roundClosed : Bool
  currentBet : Int
  minRaiseIncrement : Int
  callAmount : Int
  pots : List Pot
  roundContributionByPlayerId : PMap Int
  totalContributionByPlayerId : PMap Int

/-- `getBettingStatus`. -/
def getBettingStatus (s : BettingState) : BettingStatus :=
  let callAmount :=
    match s.activePlayerId with
    | some p => max 0 (s.currentBet - s.roundContributionByPlayerId p)
    | none => 0
  { activePlayerId := s.activePlayerId, roundClosed := s.roundClosed,
    currentBet := s.currentBet, minRaiseIncrement := s.minRaiseIncrement,
    callAmount := callAmount, pots := s.pots,
    roundContributionByPlayerId := s.roundContributionByPlayerId,
    totalContributionByPlayerId := s.totalContributionByPlayerId }

/-! ## Hold'em module -/

/-- Game phases. -/
inductive HoldemPhase
  | lobby | hand_start | preflop | flop | turn | river | showdown | hand_end
deriving DecidableEq, Repr

/-- `HoldemPlayer`. -/
structure HoldemPlayer where
  id : String
  seatIndex : Nat
  stack : Int
  folded : Bool
  allIn : Bool
  isDealer : Bool
  inHand : Bool
deriving DecidableEq, Repr

/-- Default for the (unreachable on module-produced states) out-of-range
array reads `state.players[seat]`. -/
def defaultPlayer : HoldemPlayer :=
  { id := "", seatIndex := 0, stack := 0, folded := false, allIn := false,
    isDealer := false, inHand := false }

/-- `ShowdownResult`; the two by-player records are kept as association
lists because the source iterates one with `Object.entries` (insertion
order). -/
structure ShowdownResult where
  winners : List String
  awardedByPlayerId : List (String × Int)
  handScoreByPlayerId : List (String × HandScore)
  summary : String
deriving DecidableEq, Repr

/-- `HoldemOptions`. -/
structure HoldemOptions where
  seed : Option Int
  initialStack : Option Int
  smallBlind : Option Int
  bigBlind : Option Int
  testDeck : Option (List Card)

/-- `HoldemState`. -/
structure HoldemState where
  phase : HoldemPhase
  seed : Int
  handNumber : Int
  players : List HoldemPlayer
  deck : List Card
  board : List Card
  holeCardsByPlayerId : PMap (List Card)
  dealerSeatIndex : Nat
  smallBlind : Int
  bigBlind : Int
  bettingState : Option BettingState
  pots : List Pot
  actionLog : List String
  showdown : Option ShowdownResult
  handContributionByPlayerId : PMap Int
  usePresetDeck : Bool

/-- The game-kit `GameAction`: a type tag plus the numeric payloads the
module reads.  `none` stands for a missing or non-integer
`Number(payload…)`. -/
structure GameAction where
  type : String
  amount : Option Int
  toAmount : Option Int
deriving DecidableEq, Repr

/-- The game-kit `GameResult`. -/
structure GameResult where
  winners : List String
  summary : String
deriving DecidableEq, Repr

/-- `GameApplyResult` (plus the module's thrown `Error`s, carried with
their message). -/
abbrev GameApplyResult := Except String HoldemState

/-- `nextSeatIndex` (clockwise successor). -/
def nextSeatIndex (current total : Nat) : Nat :=
  (current + 1) % total

/-- `findNextActiveSeat`: first seat after `startSeat` that is in hand (and
has chips when `requireStack`); falls back to `startSeat`. -/
def findNextActiveSeat (players : List HoldemPlayer) (startSeat : Nat)
    (requireStack : Bool := true) : Nat :=
  let total := players.length
  match (List.range total).find? (fun k =>
      match players.get? ((startSeat + (k + 1)) % total) with
      | none => false
      | some player => player.inHand && (!requireStack || decide (player.stack > 0))) with
  | some k => (startSeat + (k + 1)) % total
  | none => startSeat

/-- `activeInHandPlayers`. -/
def activeInHandPlayers (players : List HoldemPlayer) : List HoldemPlayer :=
  players.filter (fun p => p.inHand && !p.folded)

/-- One dealing pass (`for (const player of players)` inside a round):
every in-hand player draws the top card. -/
def dealRound (deck : List Card) (hole : PMap (List Card)) :
    List HoldemPlayer → Except String (List Card × PMap (List Card))
  | [] => .ok (deck, hole)
  | p :: rest =>
      if !p.inHand then dealRound deck hole rest
      else
        match deck with
        | [] => .error "Deck exhausted while dealing hole cards"
        | card :: deckRest =>
            dealRound deckRest (setKey hole p.id (hole p.id ++ [card])) rest

/-- `dealToPlayers`: two passes of one card each.  The initial
`holeCardsByPlayerId[player.id] = []` assignments coincide with the
all-empty base map. -/
def dealToPlayers (deck : List Card) (players : List HoldemPlayer) :
    Except String (List Card × PMap (List Card)) := do
  let (d1, h1) ← dealRound deck (fun _ => []) players
  dealRound d1 h1 players

/-- Hold'em phase label used in the action log. -/
def phaseName : HoldemPhase → String
  | .lobby => "lobby"
  | .hand_start => "hand_start"
  | .preflop => "preflop"
  | .flop => "flop"
  | .turn => "turn"
  | .river => "river"
  | .showdown => "showdown"
  | .hand_end => "hand_end"

/-- The betting-phase label passed to `createBettingState`; the source's
type system restricts the argument to the four betting phases, so the
catch-all is unreachable. -/
def bettingPhaseOf : HoldemPhase → BettingPhase
  | .preflop => .preflop
  | .flop => .flop
  | .turn => .turn
  | _ => .river

/-- `setupPreflopBetting`. -/
def setupPreflopBetting (state : HoldemState) : Except String HoldemState := do
  let playersInHand := state.players.filter (fun p => p.inHand && decide (p.stack > 0))
  if playersInHand.length < 2 then
    .ok { state with phase := .showdown, bettingState := none, pots := [] }
  else
    let sbSeat := findNextActiveSeat state.players state.dealerSeatIndex true
    let bbSeat := findNextActiveSeat state.players sbSeat true
    let firstToActSeat := findNextActiveSeat state.players bbSeat true
    let bs ← createBettingState
      { phase := .preflop,
        seats := playersInHand.map (fun p => { playerId := p.id, stack := p.stack }),
        forcedBets :=
          [{ playerId := (state.players.getD sbSeat defaultPlayer).id,
             amount := state.smallBlind, reason := some "small blind" },
           { playerId := (state.players.getD bbSeat defaultPlayer).id,
             amount := state.bigBlind, reason := some "big blind" }],
        firstToActPlayerId := some (state.players.getD firstToActSeat defaultPlayer).id,
        minOpenBet := some state.bigBlind }
    let nextPlayers := state.players.map (fun p =>
      if p.id ∈ bs.seatOrder then
        { p with stack := bs.stackByPlayerId p.id, allIn := bs.allInByPlayerId p.id }
      else p)
    let status := getBettingStatus bs
    let handContributionByPlayerId := nextPlayers.foldl
      (fun m p => setKey m p.id (bs.roundContributionByPlayerId p.id))
      state.handContributionByPlayerId
    let foldedByPlayerId := nextPlayers.foldl (fun m p => setKey m p.id p.folded)
      (fun _ => false)
    let pots := buildPots handContributionByPlayerId foldedByPlayerId
      ((nextPlayers.filter (fun p => p.inHand)).map (fun p => p.id))
    .ok
      { state with
        phase := .preflop,
        players := nextPlayers,
        bettingState := some bs,
        pots := if pots.length > 0 then pots else status.pots,
        handContributionByPlayerId := handContributionByPlayerId,
        actionLog := state.actionLog ++
          ["Hand " ++ toString state.handNumber ++ ": preflop started"] }

/-- `setupPostflopBetting`. -/
def setupPostflopBetting (state : HoldemState) (phase : HoldemPhase) :
    Except String HoldemState := do
  let playersInHand := state.players.filter (fun p => p.inHand && !p.folded)
  let actionable := playersInHand.filter (fun p => decide (p.stack > 0))
  if playersInHand.length ≤ 1 ∨ actionable.length = 0 then
    .ok { state with phase := .showdown, bettingState := none }
  else
    let firstToActSeat := findNextActiveSeat state.players state.dealerSeatIndex true
    let bs ← createBettingState
      { phase := bettingPhaseOf phase,
        seats := playersInHand.map (fun p => { playerId := p.id, stack := p.stack }),
        forcedBets := [],
        firstToActPlayerId := some (state.players.getD firstToActSeat defaultPlayer).id,
        minOpenBet := some state.bigBlind }
    let nextPlayers := state.players.map (fun p =>
      if p.id ∈ bs.seatOrder then
        { p with stack := bs.stackByPlayerId p.id, allIn := bs.allInByPlayerId p.id }
      else p)
    .ok
      { state with
        phase := phase,
        players := nextPlayers,
        bettingState := some bs,
        pots := state.pots,
        handContributionByPlayerId := state.handContributionByPlayerId,
        actionLog := state.actionLog ++ [phaseName phase ++ " betting started"] }

/-- Association-list lookup (`record[key]`, `none` for absent). -/
def lookupAssoc (l : List (String × α)) (k : String) : Option α :=
  (l.find? (fun e => e.1 == k)).map Prod.snd

/-- Association-list assignment: bump in place or append. -/
def setAssoc (l : List (String × α)) (k : String) (v : α) : List (String × α) :=
  if l.any (fun e => e.1 == k) then
    l.map (fun e => if e.1 == k then (k, v) else e)
  else l ++ [(k, v)]

/-- The seat index used to order tied winners
(`players.find(...)?.seatIndex ?? 0`). -/
def seatIndexOf (state : HoldemState) (q : String) : Nat :=
  ((state.players.find? (fun p => p.id == q)).map (fun p => p.seatIndex)).getD 0

/-- Award one pot: restrict to contenders with a hand score, find the best
score, split among the tied winners (floor share, remainder one chip each
in seat order). -/
def awardPot (state : HoldemState) (handScoreByPlayerId : List (String × HandScore))
    (awarded : List (String × Int)) (pot : Pot) : List (String × Int) :=
  let contenders := pot.eligiblePlayerIds.filter
    (fun q => (lookupAssoc handScoreByPlayerId q).isSome)
  match contenders with
  | [] => awarded
  | c0 :: cs =>
      let scoreOf := fun q =>
        match lookupAssoc handScoreByPlayerId q with
        | some hs => hs.scoreVector
        | none => []
      let best := cs.foldl
        (fun best contender =>
          if compareScoreVectors (scoreOf contender) (scoreOf best) > 0 then contender
          else best) c0
      let winners := (c0 :: cs).filter
        (fun q => compareScoreVectors (scoreOf q) (scoreOf best) = 0)
      let share := Int.fdiv pot.amount (winners.length : Int)
      let remainder := Int.tmod pot.amount (winners.length : Int)
      let sorted := sortByCmp
        (fun a b => decide (seatIndexOf state a ≤ seatIndexOf state b)) winners
      sorted.enum.foldl
        (fun m (iw : Nat × String) =>
          setAssoc m iw.2 ((lookupAssoc m iw.2).getD 0 + share +
            (if (iw.1 : Int) < remainder then 1 else 0)))
        awarded

/-- `runShowdown`.  `Math.floor` is `Int.fdiv` and the JavaScript `%` is
`Int.tmod`; they only differ from `Nat`-like division on the negative pot
amounts no module state produces. -/
def runShowdown (state : HoldemState) : Except String HoldemState := do
  let playersInHand := state.players.filter (fun p => p.inHand && !p.folded)
  if playersInHand.length = 0 then
    .ok
      { state with
        phase := .hand_end,
        showdown := some
          { winners := [], awardedByPlayerId := [], handScoreByPlayerId := [],
            summary := "No winners" } }
  else do
    let handScoreByPlayerId ← playersInHand.foldlM
      (fun m p => do
        let score ← evaluateBestHand (state.holeCardsByPlayerId p.id ++ state.board)
        pure (setAssoc m p.id score))
      ([] : List (String × HandScore))
    let awarded0 := playersInHand.foldl (fun m p => setAssoc m p.id 0)
      ([] : List (String × Int))
    let awardedByPlayerId := state.pots.foldl (awardPot state handScoreByPlayerId) awarded0
    let nextPlayers := state.players.map
      (fun p => { p with stack := p.stack + ((lookupAssoc awardedByPlayerId p.id).getD 0) })
    let winners := (awardedByPlayerId.filter (fun e => e.2 > 0)).map Prod.fst
    let summary :=
      if winners.length > 0 then "Winners: " ++ String.intercalate ", " winners
      else "No chips awarded"
    .ok
      { state with
        players := nextPlayers,
        phase := .hand_end,
        showdown := some
          { winners := winners, awardedByPlayerId := awardedByPlayerId,
            handScoreByPlayerId := handScoreByPlayerId, summary := summary },
        actionLog := state.actionLog ++ [summary] }

/-- `advanceAfterRoundClosed`. -/
def advanceAfterRoundClosed (state : HoldemState) : Except String HoldemState :=
  match state.bettingState with
  | none => .ok state
  | some bs =>
    if !isRoundClosed bs then .ok state
    else
      let withPots := { state with pots := state.pots }
      let nonFolded := activeInHandPlayers withPots.players
      if nonFolded.length ≤ 1 then
        runShowdown { withPots with phase := .showdown, bettingState := none }
      else if withPots.phase = .preflop then
        let flop := withPots.deck.take 3
        let nextDeck := withPots.deck.drop 3
        setupPostflopBetting
          { withPots with
            phase := .flop,
            deck := nextDeck,
            board := withPots.board ++ flop,
            bettingState := none,
            actionLog := withPots.actionLog ++
              ["Flop: " ++ String.intercalate " " (flop.map cardLabel)] }
          .flop
      else if withPots.phase = .flop then
        match withPots.deck with
        | [] => .error "Deck exhausted before turn"
        | turn :: nextDeck =>
            setupPostflopBetting
              { withPots with
                phase := .turn,
                deck := nextDeck,
                board := withPots.board ++ [turn],
                bettingState := none,
                actionLog := withPots.actionLog ++ ["Turn: " ++ cardLabel turn] }
              .turn
      else if withPots.phase = .turn then
        match withPots.deck with
        | [] => .error "Deck exhausted before river"
        | river :: nextDeck =>
            setupPostflopBetting
              { withPots with
                phase := .river,
                deck := nextDeck,
                board := withPots.board ++ [river],
                bettingState := none,
                actionLog := withPots.actionLog ++ ["River: " ++ cardLabel river] }
              .river
      else if withPots.phase = .river then
        runShowdown { withPots with phase := .showdown, bettingState := none }
      else .ok withPots

/-- `toBettingAction`. -/
def toBettingAction (action : GameAction) : Option BettingAction :=
  if action.type = "fold" then some .fold
  else if action.type = "check" then some .check
  else if action.type = "call" then some .call
  else if action.type = "bet" then
    match action.amount with
    | some a => if a ≤ 0 then none else some (.bet a)
    | none => none
  else if action.type = "raise" then
    match action.toAmount with
    | some t => if t ≤ 0 then none else some (.raise t)
    | none => none
  else if action.type = "all_in" then some .all_in
  else none

/-- `startHand`. -/
def startHand (state : HoldemState) : Except String HoldemState := do
  let playersWithChips := state.players.filter (fun p => decide (p.stack > 0))
  if playersWithChips.length < 2 then
    .error "At least two players with chips are required to start a hand"
  else
    let nextHandNumber := state.handNumber + 1
    let dealerSeatIndex :=
      if nextHandNumber = 1 then 0
      else findNextActiveSeat state.players state.dealerSeatIndex true
    let nextPlayers := state.players.enum.map
      (fun (ip : Nat × HoldemPlayer) =>
        { ip.2 with
          folded := false, allIn := false,
          isDealer := decide (ip.1 = dealerSeatIndex),
          inHand := decide (ip.2.stack > 0) })
    let rng := SeededRng.init (state.seed + nextHandNumber)
    let deckSource := if state.usePresetDeck then state.deck else buildDeck
    let shuffledDeck := if state.usePresetDeck then deckSource else shuffleDeck deckSource rng
    let dealt ← dealToPlayers shuffledDeck nextPlayers
    setupPreflopBetting
      { state with
        phase := .hand_start,
        handNumber := nextHandNumber,
        dealerSeatIndex := dealerSeatIndex,
        players := nextPlayers,
        deck := dealt.1,
        board := [],
        holeCardsByPlayerId := dealt.2,
        bettingState := none,
        pots := [],
        showdown := none,
        handContributionByPlayerId := fun _ => 0,
        actionLog := state.actionLog ++ ["Hand " ++ toString nextHandNumber ++ " started"] }

/-- `syncPlayersFromBetting` (the `typeof stack === 'number'` presence test
is membership in the betting round's key set `seatOrder`). -/
def syncPlayersFromBetting (players : List HoldemPlayer) (bs : BettingState) :
    List HoldemPlayer :=
  players.map (fun p =>
    if p.id ∈ bs.seatOrder then
      { p with
        stack := bs.stackByPlayerId p.id,
        folded := bs.foldedByPlayerId p.id,
        allIn := bs.allInByPlayerId p.id }
    else p)

/-- The per-action contribution-delta loop of `applyAction`. -/
def applyHandContribDeltas (oldRound newRound : PMap Int) (players : List HoldemPlayer)
    (hc : PMap Int) : PMap Int :=
  players.foldl
    (fun m p =>
      let delta := newRound p.id - oldRound p.id
      if delta > 0 then setKey m p.id (m p.id + delta) else m)
    hc

/-- `applyAction` of the hold'em module. -/
def applyAction (state : HoldemState) (playerId : String) (action : GameAction) :
    GameApplyResult :=
  if ¬ state.players.any (fun p => p.id == playerId) then
    .error "Player is not seated at this table"
  else if action.type = "START_HAND" then
    if state.phase ≠ .lobby ∧ state.phase ≠ .hand_end then
      .error "Hand can only be started from lobby or hand_end"
    else startHand state
  else if action.type = "ADVANCE_PHASE" then
    if state.phase = .showdown then
      .ok
        { state with
          phase := .hand_end,
          actionLog := state.actionLog ++ [playerId ++ " advanced to hand_end"] }
    else
      match state.bettingState with
      | some bs =>
          if isRoundClosed bs then
            advanceAfterRoundClosed
              { state with actionLog := state.actionLog ++ [playerId ++ " advanced phase"] }
          else .error "Cannot advance phase right now"
      | none => .error "Cannot advance phase right now"
  else
    match toBettingAction action with
    | none => .error ("Unsupported action: " ++ action.type)
    | some bettingAction =>
      match state.bettingState with
      | none => .error "No active betting round"
      | some bs =>
        match applyBettingAction bs playerId bettingAction with
        | .error e => .error e
        | .ok nextBettingState =>
            let syncedPlayers := syncPlayersFromBetting state.players nextBettingState
            let status := getBettingStatus nextBettingState
            let nextState0 :=
              { state with
                players := syncedPlayers,
                bettingState := some nextBettingState,
                pots := status.pots,
                handContributionByPlayerId := state.handContributionByPlayerId,
                actionLog := state.actionLog ++ [playerId ++ " -> " ++ action.type] }
            let hc := applyHandContribDeltas bs.roundContributionByPlayerId
              nextBettingState.roundContributionByPlayerId nextState0.players
              nextState0.handContributionByPlayerId
            let foldedByPlayerId := nextState0.players.foldl
              (fun m p => setKey m p.id p.folded) (fun _ => false)
            let pots := buildPots hc foldedByPlayerId
              ((nextState0.players.filter (fun p => p.inHand)).map (fun p => p.id))
            let nextState := { nextState0 with handContributionByPlayerId := hc, pots := pots }
            if isRoundClosed nextBettingState then advanceAfterRoundClosed nextState
            else .ok nextState

/-- `createInitialState`. -/
def createInitialState (players : List String) (options : Option HoldemOptions) :
    HoldemState :=
  let seed := (options.bind (fun o => o.seed)).getD 1
  let initialStack := (options.bind (fun o => o.initialStack)).getD 1000
  let smallBlind := (options.bind (fun o => o.smallBlind)).getD 5
  let bigBlind := (options.bind (fun o => o.bigBlind)).getD 10
  let seatedPlayers := players.enum.map
    (fun (si : Nat × String) =>
      { id := si.2, seatIndex := si.1, stack := initialStack, folded := false,
        allIn := false, isDealer := decide (si.1 = 0), inHand := true })
  let deck :=
    match options.bind (fun o => o.testDeck) with
    | some d => d
    | none => buildDeck
  { phase := .lobby, seed := seed, handNumber := 0, players := seatedPlayers,
    deck := deck, board := [], holeCardsByPlayerId := fun _ => [],
    dealerSeatIndex := 0, smallBlind := smallBlind, bigBlind := bigBlind,
    bettingState := none, pots := [], actionLog := [], showdown := none,
    handContributionByPlayerId := fun _ => 0,
    usePresetDeck := (options.bind (fun o => o.testDeck)).isSome }

/-- The per-seat projection inside `HoldemPublicView.players`. -/
structure PublicPlayerInfo where
  id : String
  seatIndex : Nat
  stack : Int
  folded : Bool
  allIn : Bool
  isDealer : Bool
  inHand : Bool
deriving DecidableEq, Repr

/-- `HoldemPublicView`. -/
structure HoldemPublicView where
  phase : HoldemPhase
  handNumber : Int
  board : List Card
  players : List PublicPlayerInfo
  pots : List Pot
  activePlayerId : Option String
  actionLog : List String
deriving DecidableEq, Repr

/-- `getPublicView`. -/
def getPublicView (state : HoldemState) : HoldemPublicView :=
  { phase := state.phase,
    handNumber := state.handNumber,
    board := state.board,
    players := state.players.map (fun p =>
      { id := p.id, seatIndex := p.seatIndex, stack := p.stack, folded := p.folded,
        allIn := p.allIn, isDealer := p.isDealer, inHand := p.inHand }),
    pots := state.pots,
    activePlayerId :=
      match state.bettingState with
      | some bs => bs.activePlayerId
      | none => none,
    actionLog := state.actionLog }

/-- `HoldemPlayerView` (`...publicView` spread plus the private fields). -/
structure HoldemPlayerView where
  publicView : HoldemPublicView
  playerId : String
  holeCards : List Card
  availableActions : Option AvailableActions
deriving DecidableEq, Repr

/-- `getPlayerView` (`?? []` coincides with the all-empty base map). -/
def getPlayerView (state : HoldemState) (playerId : String) : HoldemPlayerView :=
  { publicView := getPublicView state,
    playerId := playerId,
    holeCards := state.holeCardsByPlayerId playerId,
    availableActions := state.bettingState.map (fun bs => getAvailableActions bs playerId) }

/-- `isGameOver`. -/
def isGameOver (state : HoldemState) : Bool :=
  (state.players.filter (fun p => decide (p.stack > 0))).length ≤ 1

/-- `getResult`.  On an empty seat list the source's
`players.reduce(..., players[0])` yields `undefined` and `winner.id`
throws; that is the `error` branch. -/
def getResult (state : HoldemState) : Except String (Option GameResult) :=
  match state.showdown with
  | none =>
      if !isGameOver state then .ok none
      else
        match state.players with
        | [] => .error "TypeError: cannot read properties of undefined"
        | p0 :: _ =>
            let winner := state.players.foldl
              (fun best player => if player.stack > best.stack then player else best) p0
            .ok (some { winners := [winner.id], summary := winner.id ++ " wins by chip lead" })
  | some sd => .ok (some { winners := sd.winners, summary := sd.summary })

/-! ## Claim theorems -/

/-- C3 — Hidden-information safety: `getPublicView` is unchanged under any
replacement of the hole-card map and of the remaining deck (so it carries
neither), and for distinct players `p ≠ q` the view of `q` is unchanged
under any change to `p`'s hole cards while it does carry `q`'s own hole
cards. -/
theorem hidden_information_safety :
    ∀ (s : HoldemState) (hc : PMap (List Card)) (d : List Card) (p q : String)
      (cards : List Card), p ≠ q →
      getPublicView { s with holeCardsByPlayerId := hc, deck := d } = getPublicView s ∧
      getPlayerView
          { s with holeCardsByPlayerId := setKey s.holeCardsByPlayerId p cards, deck := d } q =
        getPlayerView s q ∧
      (getPlayerView s q).holeCards = s.holeCardsByPlayerId q := by
  intro s hc d p q cards hpq
  refine ⟨rfl, ?_, rfl⟩
  simp only [getPlayerView, getPublicView]
  rw [setKey_other _ _ _ _ (Ne.symm hpq)]

/-- Witness for C3 at a concrete two-player table. -/
theorem hidden_information_safety_witness :
    ("alice" : String) ≠ "bob" ∧
      (getPlayerView
          { createInitialState ["alice", "bob"] none with
            holeCardsByPlayerId :=
              setKey (createInitialState ["alice", "bob"] none).holeCardsByPlayerId "alice"
                [⟨.rA, .spades⟩, ⟨.rA, .hearts⟩], deck := [] } "bob" =
        getPlayerView (createInitialState ["alice", "bob"] none) "bob") :=
  ⟨by decide,
    (hidden_information_safety (createInitialState ["alice", "bob"] none)
      (fun _ => []) [] "alice" "bob" [⟨.rA, .spades⟩, ⟨.rA, .hearts⟩] (by decide)).2.1⟩

/-- C9 — Illegal check: when the validated active player faces a positive
call amount, `check` fails with the message "Cannot check when facing a
bet" (which the literal "Cannot check" begins), both at the betting engine
and through the module's `applyAction`; being pure functions of the state,
the failing calls return only the error and the caller's state value is
untouched. -/
theorem illegal_check_rejection :
    ∀ (s : BettingState) (p : String) (hs : HoldemState) (am tam : Option Int),
      p ∈ s.seatOrder → s.roundClosed = false → s.activePlayerId = some p →
      s.foldedByPlayerId p = false → s.allInByPlayerId p = false →
      0 < s.stackByPlayerId p → 0 < s.currentBet - s.roundContributionByPlayerId p →
      hs.players.any (fun pl => pl.id == p) = true → hs.bettingState = some s →
      applyBettingAction s p .check = .error "Cannot check when facing a bet" ∧
      applyAction hs p ⟨"check", am, tam⟩ = .error "Cannot check when facing a bet" ∧
      ("Cannot check".data).isPrefixOf ("Cannot check when facing a bet".data) = true := by
  intro s p hs am tam hmem hrc hap hf ha hst hcall hseat hbs
  have hvt : validateTurn s p = none := by
    simp [validateTurn, hmem, hrc, hap, hf, ha]
    omega
  have hne : max 0 (s.currentBet - s.roundContributionByPlayerId p) ≠ 0 := by omega
  have hba : applyBettingAction s p .check = .error "Cannot check when facing a bet" := by
    simp only [applyBettingAction, applyBettingActionCore, hvt]
    rw [if_pos hne]
  refine ⟨hba, ?_, by decide⟩
  simp only [applyAction, hseat]
  simp [toBettingAction, hbs, hba]

/-- A concrete open betting round: seat `a` posted 10, seat `b` is to act
facing a call amount of 10. -/
def checkState : BettingState :=
  { phase := .turn, seatOrder := ["a", "b"], activePlayerId := some "b",
    foldedByPlayerId := fun _ => false, allInByPlayerId := fun _ => false,
    stackByPlayerId := fun q => if q = "a" then 30 else if q = "b" then 40 else 0,
    roundContributionByPlayerId := fun q => if q = "a" then 10 else 0,
    totalContributionByPlayerId := fun q => if q = "a" then 10 else 0,
    hasActedByPlayerId := fun _ => false,
    currentBet := 10, minRaiseIncrement := 10, minOpenBet := 10,
    roundClosed := false, pots := [{ amount := 10, eligiblePlayerIds := ["a", "b"] }],
    actionLog := [] }

/-- A hold'em state carrying `checkState` as its live betting round. -/
def checkHoldemState : HoldemState :=
  { createInitialState ["a", "b"] none with bettingState := some checkState }

/-- Witness for C9: the concrete illegal check is rejected with the
expected message at both layers. -/
theorem illegal_check_rejection_witness :
    applyBettingAction checkState "b" .check = .error "Cannot check when facing a bet" ∧
      applyAction checkHoldemState "b" ⟨"check", none, none⟩ =
        .error "Cannot check when facing a bet" := by
  have h := illegal_check_rejection checkState "b" checkHoldemState none none
    (by decide) rfl rfl rfl rfl (by decide) (by decide) (by decide) rfl
  exact ⟨h.1, h.2.1⟩

/-- C7 - Wheel straight: any 5 cards whose ranks are A, 2, 3, 4, 5 score
as the lowest straight with high card 5 (vector `[4, 5]`), or as a straight
flush `[8, 5]` when all suits agree; the Ace's `RANK_TO_VALUE` ordinal
stays 14 everywhere else. -/
theorem wheel_straight :
    ∀ cards : List Card,
      (cards.map (fun c => RANK_TO_VALUE c.rank)).Perm [14, 5, 4, 3, 2] →
      RANK_TO_VALUE Rank.rA = 14 ∧
      ((cards.map Card.suit).eraseDups.length = 1 →
        evaluateFive cards =
          { category := .straight_flush, scoreVector := [8, 5], label := "Straight Flush" }) ∧
      ((cards.map Card.suit).eraseDups.length ≠ 1 →
        evaluateFive cards =
          { category := .straight, scoreVector := [4, 5], label := "Straight" }) := by
  intro cards hperm
  have htot : TotalLe descIntLe := by
    intro a b
    simp [descIntLe]
    omega
  have htr : TransLe descIntLe := by
    intro a b c
    simp [descIntLe]
    omega
  have hanti : ∀ a b : Int, descIntLe a b = true → descIntLe b a = true → a = b := by
    intro a b
    simp [descIntLe]
    omega
  have hsorted :
      sortByCmp descIntLe (cards.map (fun c => RANK_TO_VALUE c.rank)) = [14, 5, 4, 3, 2] := by
    apply sorted_perm_unique hanti ((sortByCmp_perm _ _).trans hperm)
      (sortByCmp_sorted _ htot htr _)
    decide
  refine ⟨rfl, ?_, ?_⟩
  · intro hflush
    have hb : ((cards.map Card.suit).eraseDups.length == 1) = true := by
      simp [hflush]
    simp only [evaluateFive, hsorted, hb]
    decide
  · intro hflush
    have hb : ((cards.map Card.suit).eraseDups.length == 1) = false := by
      simp [hflush]
    simp only [evaluateFive, hsorted, hb]
    decide

/-- The A-2-3-4-5 wheel hand used as the C7 witness. -/
def wheelCards : List Card :=
  [{ rank := .rA, suit := .hearts }, { rank := .r2, suit := .clubs },
   { rank := .r3, suit := .diamonds }, { rank := .r4, suit := .spades },
   { rank := .r5, suit := .hearts }]

/-- Witness for C7 at a concrete rainbow wheel. -/
theorem wheel_straight_witness :
    evaluateFive wheelCards =
      { category := .straight, scoreVector := [4, 5], label := "Straight" } :=
  (wheel_straight wheelCards (by decide)).2.2 (by decide)

/-- The `players.reduce((best, p) => p.stack > best.stack ? p : best, players[0])`
of `getResult` returns the first list element attaining the maximal stack. -/
theorem foldMax_first (p0 : HoldemPlayer) (players : List HoldemPlayer) :
    ∃ r pre post,
      players.foldl (fun best p => if p.stack > best.stack then p else best) p0 = r ∧
      p0 :: players = pre ++ r :: post ∧
      (∀ p ∈ pre, p.stack < r.stack) ∧
      (∀ p ∈ post, p.stack ≤ r.stack) := by
  induction players generalizing p0 with
  | nil => exact ⟨p0, [], [], rfl, rfl, by simp, by simp⟩
  | cons q qs ih =>
      simp only [List.foldl_cons]
      by_cases hq : q.stack > p0.stack
      · rw [if_pos hq]
        rcases ih q with ⟨r, pre', post', hfold, hdec, hpre, hpost⟩
        have hqr : q.stack ≤ r.stack := by
          cases pre' with
          | nil =>
              have : q = r := by
                have := congrArg List.head? hdec
                simpa using this
              rw [this]
          | cons h t =>
              have hh : q = h := by
                have := congrArg List.head? hdec
                simpa using this
              exact le_of_lt (hh ▸ hpre h (by simp))
        refine ⟨r, p0 :: pre', post', hfold, by simp [hdec], ?_, hpost⟩
        intro p hp
        rcases List.mem_cons.mp hp with rfl | hp
        · omega
        · exact hpre p hp
      · rw [if_neg hq]
        rcases ih p0 with ⟨r, pre', post', hfold, hdec, hpre, hpost⟩
        cases pre' with
        | nil =>
            simp only [List.nil_append, List.cons.injEq] at hdec
            rcases hdec with ⟨hr1, hr2⟩
            refine ⟨r, [], q :: qs, hfold, by simp [hr1], by simp, ?_⟩
            intro p hp
            rcases List.mem_cons.mp hp with rfl | hp
            · rw [← hr1]
              omega
            · rw [hr2] at hp
              exact hpost p hp
        | cons h t =>
            have hsplit : p0 = h ∧ qs = t ++ r :: post' := by
              simp at hdec
              exact hdec
            rcases hsplit with ⟨hh, hqs⟩
            refine ⟨r, p0 :: q :: t, post', hfold, by simp [hqs], ?_, hpost⟩
            have hp0r : p0.stack < r.stack := hh ▸ hpre h (by simp)
            intro p hp
            rcases List.mem_cons.mp hp with rfl | hp
            · exact hp0r
            · rcases List.mem_cons.mp hp with rfl | hp
              · omega
              · exact hpre p (by simp [hp])

/-- C10 (amended) — game-over result fallback: with a showdown result,
`getResult` returns its winners and summary; without one, it returns
`none` exactly while more than one player holds a positive stack, and
otherwise names as the single chip-lead winner the earliest-seated player
whose stack is strictly greater than every earlier player's and at least
every later player's (only when exactly one player still holds chips is
that winner's stack strictly greatest overall — with zero players holding
chips the fallback still names the first such fold maximum, which is the
corrected part of the claim). -/
theorem getResult_amended :
    ∀ s : HoldemState,
      (∀ sd, s.showdown = some sd →
        getResult s = .ok (some { winners := sd.winners, summary := sd.summary })) ∧
      (s.showdown = none →
        (1 < (s.players.filter (fun p => decide (p.stack > 0))).length →
          getResult s = .ok none) ∧
        ((s.players.filter (fun p => decide (p.stack > 0))).length ≤ 1 → s.players ≠ [] →
          ∃ w pre post,
            getResult s =
              .ok (some { winners := [w.id], summary := w.id ++ " wins by chip lead" }) ∧
            s.players = pre ++ w :: post ∧
            (∀ p ∈ pre, p.stack < w.stack) ∧
            (∀ p ∈ post, p.stack ≤ w.stack) ∧
            ((s.players.filter (fun p => decide (p.stack > 0))).length = 1 →
              ∀ p ∈ pre ++ post, p.stack < w.stack))) := by
  intro s
  constructor
  · intro sd hsd
    simp [getResult, hsd]
  · intro hsd
    constructor
    · intro hgt
      have hgo : isGameOver s = false := by
        simp only [isGameOver, decide_eq_false_iff_not]
        omega
      simp [getResult, hsd, hgo]
    · intro hle hne
      have hgo : isGameOver s = true := by
        simp only [isGameOver, decide_eq_true_eq]
        exact hle
      match hps : s.players with
      | [] => exact absurd hps hne
      | p0 :: rest =>
          have hfold0 :
              (p0 :: rest).foldl (fun best p => if p.stack > best.stack then p else best) p0 =
                rest.foldl (fun best p => if p.stack > best.stack then p else best) p0 := by
            simp
          rcases foldMax_first p0 rest with ⟨r, pre, post, hfold, hdec, hpre, hpost⟩
          refine ⟨r, pre, post, ?_, hdec, hpre, hpost, ?_⟩
          · simp only [getResult, hsd, hgo, Bool.not_true, Bool.false_eq_true, if_false, hps]
            rw [hfold0, hfold]
          · intro hone p hp
            have hwpos : 0 < r.stack := by
              by_contra hw
              push_neg at hw
              have hfe : (p0 :: rest).filter (fun p => decide (p.stack > 0)) = [] := by
                rw [hdec]
                apply List.filter_eq_nil_iff.mpr
                intro a ha
                simp only [List.mem_append, List.mem_cons] at ha
                rcases ha with ha | rfl | ha
                · have := hpre a ha
                  simp only [decide_eq_true_eq]
                  omega
                · simp only [decide_eq_true_eq]
                  omega
                · have := hpost a ha
                  simp only [decide_eq_true_eq]
                  omega
              rw [hfe] at hone
              simp at hone
            rcases List.mem_append.mp hp with hp | hp
            · exact hpre p hp
            · by_contra hnl
              push_neg at hnl
              have hppos : (0 : Int) < p.stack := lt_of_lt_of_le hwpos hnl
              have h2 : 2 ≤ ((p0 :: rest).filter (fun q => decide (q.stack > 0))).length := by
                rw [hdec, List.filter_append, List.filter_cons]
                have hwp : (decide (r.stack > 0)) = true := by simp [hwpos]
                simp only [hwp, if_true]
                have hmem : p ∈ post.filter (fun q => decide (q.stack > 0)) :=
                  List.mem_filter.mpr ⟨hp, by simp [hppos]⟩
                have hlen : 1 ≤ (post.filter (fun q => decide (q.stack > 0))).length :=
                  List.length_pos.mpr (List.ne_nil_of_mem hmem)
                simp only [List.length_append, List.length_cons]
                omega
              omega

/-- A two-seat table where every stack is zero: at most one (namely zero)
players hold a positive stack, yet nobody's stack is strictly greatest. -/
def zeroStacksState : HoldemState :=
  { createInitialState ["p1", "p2"] none with
    players := (createInitialState ["p1", "p2"] none).players.map
      (fun p => { p with stack := 0 }) }

/-- Counterexample for C10 as stated: with both stacks zero the fallback
still reports the single winner `p1`, but no player (in particular not
`p1`) has a strictly greatest stack, so the claimed characterisation of
the winner fails. -/
theorem getResult_counterexample :
    zeroStacksState.showdown = none ∧
      (zeroStacksState.players.filter (fun p => decide (p.stack > 0))).length ≤ 1 ∧
      getResult zeroStacksState =
        .ok (some { winners := ["p1"], summary := "p1 wins by chip lead" }) ∧
      ¬ ∃ w ∈ zeroStacksState.players, w.id = "p1" ∧
          ∀ p ∈ zeroStacksState.players, p.id ≠ w.id → p.stack < w.stack := by
  refine ⟨rfl, by decide, rfl, ?_⟩
  decide

/-- A finished two-seat game: `p1` holds all the chips. -/
def chipLeadState : HoldemState :=
  { createInitialState ["p1", "p2"] none with
    players :=
      [{ id := "p1", seatIndex := 0, stack := 2000, folded := false, allIn := false,
         isDealer := true, inHand := true },
       { id := "p2", seatIndex := 1, stack := 0, folded := true, allIn := false,
         isDealer := false, inHand := true }] }

/-- Witness for the amended C10 at a concrete decided game. -/
theorem getResult_amended_witness :
    ∃ w pre post,
      getResult chipLeadState =
        .ok (some { winners := [w.id], summary := w.id ++ " wins by chip lead" }) ∧
      chipLeadState.players = pre ++ w :: post ∧
      (∀ p ∈ pre, p.stack < w.stack) ∧
      (∀ p ∈ post, p.stack ≤ w.stack) ∧
      ((chipLeadState.players.filter (fun p => decide (p.stack > 0))).length = 1 →
        ∀ p ∈ pre ++ post, p.stack < w.stack) :=
  ((getResult_amended chipLeadState).2 rfl).2 (by decide) (by decide)

/-! ## A concrete two-player hand

A deterministic two-seat table with a preset four-card deck (enough for the
two hole cards of each player), used to exercise `applyAction` on concrete
input.  `startRes` is the state after `START_HAND`; the `match` staging lets
the elaborator force the pipeline once and reuse the value. -/

/-- Four-card preset deck: A♠ K♠ Q♠ J♠. -/
def tdW : List Card := [⟨.rA, .spades⟩, ⟨.rK, .spades⟩, ⟨.rQ, .spades⟩, ⟨.rJ, .spades⟩]

/-- A fresh two-player table (`a` in seat 0, `b` in seat 1, stacks 1000,
blinds 5/10) with the preset deck `tdW`. -/
def g3v : HoldemState := createInitialState ["a", "b"] (some ⟨none, none, none, none, some tdW⟩)

/-- The state after `a` starts the first hand on `g3v`. -/
def startRes : HoldemState :=
  match applyAction g3v "a" ⟨"START_HAND", none, none⟩ with
  | .ok s => s
  | .error _ => g3v

set_option maxHeartbeats 1600000 in
theorem g3v_start_ok : applyAction g3v "a" ⟨"START_HAND", none, none⟩ = .ok startRes := by rfl

/-- The preflop betting round of `startRes`. -/
def bsRes : BettingState :=
  match startRes.bettingState with
  | some bs => bs
  | none => checkState

set_option maxHeartbeats 1600000 in
theorem startRes_bs : startRes.bettingState = some bsRes := by rfl

/-- C5 — heads-up preflop seating, refuted by the code: starting a hand on
the fresh two-player table `g3v` (blinds 5/10) makes seat 0 (`a`) the
dealer, yet the small blind of 5 is posted by the non-dealer `b`, the big
blind of 10 by the dealer `a`, and the first player to act is `b` — the
dealer neither posts the small blind nor acts first.  The cause:
`findNextActiveSeat` starts at the seat after the dealer for the small
blind, which is correct at three or more players but swaps the blinds
heads-up. -/
theorem headsup_preflop_dealer_bug :
    applyAction g3v "a" ⟨"START_HAND", none, none⟩ = .ok startRes ∧
    g3v.smallBlind = 5 ∧ g3v.bigBlind = 10 ∧
    startRes.phase = .preflop ∧
    startRes.players.map (fun p => (p.id, p.isDealer)) = [("a", true), ("b", false)] ∧
    startRes.bettingState = some bsRes ∧
    bsRes.roundContributionByPlayerId "b" = 5 ∧
    bsRes.roundContributionByPlayerId "a" = 10 ∧
    bsRes.actionLog = ["b posts 5 (small blind)", "a posts 10 (big blind)"] ∧
    bsRes.activePlayerId = some "b" :=
  ⟨g3v_start_ok, rfl, rfl, by rfl, by rfl, startRes_bs, by rfl, by rfl, by rfl, by rfl⟩

/-! ## Projections of `evaluateRound`

`evaluateRound` only rewrites `activePlayerId`, `roundClosed` and `pots`;
every per-player map, the seat order and the bet levels pass through
unchanged, and the rebuilt `pots` is the same `buildPots` call in all three
branches. -/

theorem evaluateRound_seatOrder (s : BettingState) (l : Option String) :
    (evaluateRound s l).seatOrder = s.seatOrder := by
  unfold evaluateRound
  dsimp only
  split
  · rfl
  · split <;> rfl

theorem evaluateRound_stack (s : BettingState) (l : Option String) :
    (evaluateRound s l).stackByPlayerId = s.stackByPlayerId := by
  unfold evaluateRound
  dsimp only
  split
  · rfl
  · split <;> rfl

theorem evaluateRound_round (s : BettingState) (l : Option String) :
    (evaluateRound s l).roundContributionByPlayerId = s.roundContributionByPlayerId := by
  unfold evaluateRound
  dsimp only
  split
  · rfl
  · split <;> rfl

theorem evaluateRound_total (s : BettingState) (l : Option String) :
    (evaluateRound s l).totalContributionByPlayerId = s.totalContributionByPlayerId := by
  unfold evaluateRound
  dsimp only
  split
  · rfl
  · split <;> rfl

theorem evaluateRound_folded (s : BettingState) (l : Option String) :
    (evaluateRound s l).foldedByPlayerId = s.foldedByPlayerId := by
  unfold evaluateRound
  dsimp only
  split
  · rfl
  · split <;> rfl

theorem evaluateRound_allIn (s : BettingState) (l : Option String) :
    (evaluateRound s l).allInByPlayerId = s.allInByPlayerId := by
  unfold evaluateRound
  dsimp only
  split
  · rfl
  · split <;> rfl

theorem evaluateRound_hasActed (s : BettingState) (l : Option String) :
    (evaluateRound s l).hasActedByPlayerId = s.hasActedByPlayerId := by
  unfold evaluateRound
  dsimp only
  split
  · rfl
  · split <;> rfl

theorem evaluateRound_minRaiseIncrement (s : BettingState) (l : Option String) :
    (evaluateRound s l).minRaiseIncrement = s.minRaiseIncrement := by
  unfold evaluateRound
  dsimp only
  split
  · rfl
  · split <;> rfl

theorem evaluateRound_currentBet (s : BettingState) (l : Option String) :
    (evaluateRound s l).currentBet = s.currentBet := by
  unfold evaluateRound
  dsimp only
  split
  · rfl
  · split <;> rfl

theorem evaluateRound_minOpenBet (s : BettingState) (l : Option String) :
    (evaluateRound s l).minOpenBet = s.minOpenBet := by
  unfold evaluateRound
  dsimp only
  split
  · rfl
  · split <;> rfl

theorem evaluateRound_pots (s : BettingState) (l : Option String) :
    (evaluateRound s l).pots =
      buildPots s.totalContributionByPlayerId s.foldedByPlayerId s.seatOrder := by
  unfold evaluateRound
  dsimp only
  split
  · rfl
  · split <;> rfl

/-! ## C4: under-minimum all-in raise -/

/-- `canStillAct` only reads the seat's folded flag, all-in flag and
stack. -/
theorem canStillAct_congr {s s' : BettingState} {q : String}
    (hf : s'.foldedByPlayerId q = s.foldedByPlayerId q)
    (ha : s'.allInByPlayerId q = s.allInByPlayerId q)
    (hs : s'.stackByPlayerId q = s.stackByPlayerId q) :
    canStillAct s' q = canStillAct s q := by
  unfold canStillAct
  rw [hf, ha, hs]

/-- C4 (amended) — under-minimum all-in raise: when a raise to `t` that
puts the actor all-in (`t` minus the actor's round contribution equals the
actor's stack) succeeds with a raise increment below `minRaiseIncrement`,
the resulting state keeps `minRaiseIncrement` unchanged; but, contrary to
the claim's second half, the action IS reopened: every other seat's
`hasActed` flag is recomputed to `!canStillAct` — in particular it is
cleared for every player who had already fully called and can still act,
because the raise branch runs `resetHasActedForReopen` unconditionally. -/
theorem allin_underraise_amended :
    ∀ (s : BettingState) (p : String) (t : Int) (s' : BettingState),
      applyBettingAction s p (.raise t) = .ok s' →
      t - s.roundContributionByPlayerId p = s.stackByPlayerId p →
      t - s.currentBet < s.minRaiseIncrement →
      s'.minRaiseIncrement = s.minRaiseIncrement ∧
      ∀ q ∈ s.seatOrder, q ≠ p →
        s'.hasActedByPlayerId q = !canStillAct s q := by
  intro s p t s' hok hallin hunder
  simp only [applyBettingAction, applyBettingActionCore] at hok
  cases hvt : validateTurn s p with
  | some e => rw [hvt] at hok; exact absurd hok (by simp)
  | none =>
    rw [hvt] at hok
    simp only at hok
    split at hok
    · exact absurd hok (by simp)
    split at hok
    · exact absurd hok (by simp)
    split at hok
    · exact absurd hok (by simp)
    split at hok
    · exact absurd hok (by simp)
    split at hok
    · exact absurd hok (by simp)
    split at hok
    · exact absurd hok (by simp)
    · rename_i h1 h2 h3 h4 h5 h6
      replace hok := Except.ok.inj hok
      subst hok
      constructor
      · rw [evaluateRound_minRaiseIncrement]
        simp only
        rw [if_neg (by omega)]
      · intro q hq hqp
        rw [evaluateRound_hasActed]
        simp only
        rw [resetHasActedForReopen_apply]
        simp only [hq, if_pos, if_neg hqp]
        congr 1
        apply canStillAct_congr
        · rfl
        · dsimp only
          split
          · exact setKey_other _ _ _ _ hqp
          · rfl
        · exact setKey_other _ _ _ _ hqp

/-- Three-handed flop round: `a` bet 10, `b` called 10 (both have acted),
`c` still to act holding a 15-chip stack; `minRaiseIncrement` is 10. -/
def underRaiseState : BettingState :=
  { phase := .flop, seatOrder := ["a", "b", "c"], activePlayerId := some "c",
    foldedByPlayerId := fun _ => false, allInByPlayerId := fun _ => false,
    stackByPlayerId := fun q => if q = "c" then 15 else 90,
    roundContributionByPlayerId := fun q => if q = "c" then 0 else 10,
    totalContributionByPlayerId := fun q => if q = "c" then 0 else 10,
    hasActedByPlayerId := fun q => q != "c",
    currentBet := 10, minRaiseIncrement := 10, minOpenBet := 10,
    roundClosed := false, pots := [], actionLog := [] }

/-- The state after `c` moves all-in on `underRaiseState` (a raise to 15,
increment 5 < 10). -/
def underRaiseRes : BettingState :=
  match applyBettingAction underRaiseState "c" .all_in with
  | .ok s => s
  | .error _ => underRaiseState

/-- Counterexample for C4 as stated: `a` had fully called the 10-chip bet
(`hasActed = true`, contribution = `currentBet`), `c`'s all-in raise to 15
is under the minimum increment (5 < 10), yet afterwards `a`'s `hasActed`
flag is cleared — the code reopens action for the previously-acted full
caller, contrary to the claim (while `minRaiseIncrement` does stay 10). -/
theorem allin_underraise_counterexample :
    underRaiseState.hasActedByPlayerId "a" = true ∧
    underRaiseState.roundContributionByPlayerId "a" = underRaiseState.currentBet ∧
    underRaiseState.stackByPlayerId "c" +
      underRaiseState.roundContributionByPlayerId "c" - underRaiseState.currentBet <
      underRaiseState.minRaiseIncrement ∧
    applyBettingAction underRaiseState "c" .all_in = .ok underRaiseRes ∧
    underRaiseRes.minRaiseIncrement = 10 ∧
    underRaiseRes.hasActedByPlayerId "a" = false :=
  ⟨rfl, rfl, by decide, by rfl, by rfl, by rfl⟩

/-- Witness for the amended C4: the same all-in (dispatched as a raise to
15) at the concrete `underRaiseState`. -/
theorem allin_underraise_amended_witness :
    applyBettingAction underRaiseState "c" (.raise 15) = .ok underRaiseRes ∧
    15 - underRaiseState.roundContributionByPlayerId "c" =
      underRaiseState.stackByPlayerId "c" ∧
    15 - underRaiseState.currentBet < underRaiseState.minRaiseIncrement ∧
    underRaiseRes.minRaiseIncrement = underRaiseState.minRaiseIncrement ∧
    (∀ q ∈ underRaiseState.seatOrder, q ≠ "c" →
      underRaiseRes.hasActedByPlayerId q = !canStillAct underRaiseState q) :=
  ⟨by rfl, by decide, by decide,
   (allin_underraise_amended underRaiseState "c" 15 underRaiseRes (by rfl)
     (by decide) (by decide)).1,
   (allin_underraise_amended underRaiseState "c" 15 underRaiseRes (by rfl)
     (by decide) (by decide)).2⟩

/-! ## C2: side-pot construction against its specification -/

/-- Modelled from the spec: one layering pass of side-pot construction —
take `L`, the smallest positive remaining contribution across seats with
remaining > 0; emit one pot of `L` times the number of such seats whose
eligible players are those seats minus the folded ones; subtract `L` from
each such seat; repeat until no positive remaining contribution is left.
Each pass zeroes the minimal contributor, so the number of passes is
bounded by the number of seats, which serves as structural fuel. -/
def sidePotsSpecGo (folded : PMap Bool) (seatOrder : List String) :
    Nat → PMap Int → List Pot
  | 0, _ => []
  | fuel + 1, remaining =>
      let contributors := seatOrder.filter (fun q => decide (0 < remaining q))
      match contributors with
      | [] => []
      | c0 :: cs =>
          let level := ((c0 :: cs).map remaining).foldl min (remaining c0)
          { amount := level * (((c0 :: cs).length : Nat) : Int),
            eligiblePlayerIds := (c0 :: cs).filter (fun q => !folded q) } ::
            sidePotsSpecGo folded seatOrder fuel
              (fun q => if q ∈ c0 :: cs then remaining q - level else remaining q)

/-- Modelled from the spec: the side pots of a total-contribution map, a
folded map and a seat order. -/
def sidePotsSpec (totalContributionByPlayerId : PMap Int) (foldedByPlayerId : PMap Bool)
    (seatOrder : List String) : List Pot :=
  sidePotsSpecGo foldedByPlayerId seatOrder seatOrder.length totalContributionByPlayerId

theorem foldMin_eq_spec_min (remaining : PMap Int) (hd : String) (tl : List String) :
    ((hd :: tl).map remaining).foldl min (remaining hd) = foldMin remaining hd tl := by
  rw [List.map_cons, List.foldl_cons, min_self, List.foldl_map]
  rfl

theorem buildPotsGo_eq_spec (folded : PMap Bool) (seatOrder : List String)
    (hnd : seatOrder.Nodup) :
    ∀ (fuel : Nat) (remaining : PMap Int),
      buildPotsGo folded seatOrder fuel remaining =
        sidePotsSpecGo folded seatOrder fuel remaining := by
  intro fuel
  induction fuel with
  | zero => intro remaining; rfl
  | succ f ih =>
      intro remaining
      simp only [buildPotsGo, sidePotsSpecGo]
      match hfil : seatOrder.filter (fun q => decide (0 < remaining q)) with
      | [] => rfl
      | hd :: tl =>
          dsimp only
          have hcnd : (hd :: tl).Nodup := hfil ▸ hnd.filter _
          have hlv : ((hd :: tl).map remaining).foldl min (remaining hd) =
              foldMin remaining hd tl := foldMin_eq_spec_min remaining hd tl
          have hrem : subtractLevel remaining (hd :: tl) (foldMin remaining hd tl) =
              fun q => if q ∈ hd :: tl then remaining q - foldMin remaining hd tl
                else remaining q := by
            funext x
            rw [subtractLevel_apply]
            by_cases hx : x ∈ hd :: tl
            · rw [if_pos hx, List.count_eq_one_of_mem hcnd hx]
              push_cast
              ring
            · rw [if_neg hx, List.count_eq_zero_of_not_mem hx]
              push_cast
              ring
          rw [hlv, ih, hrem]

theorem buildPotsGo_folded_not_eligible (folded : PMap Bool) (seatOrder : List String) :
    ∀ (fuel : Nat) (remaining : PMap Int) (pot : Pot),
      pot ∈ buildPotsGo folded seatOrder fuel remaining →
      ∀ q ∈ pot.eligiblePlayerIds, folded q = false := by
  intro fuel
  induction fuel with
  | zero => intro remaining pot hpot; exact absurd hpot (by simp [buildPotsGo])
  | succ f ih =>
      intro remaining pot hpot q hq
      rw [buildPotsGo] at hpot
      revert hpot
      match hfil : seatOrder.filter (fun q => decide (0 < remaining q)) with
      | [] => intro hpot; exact absurd hpot (by simp)
      | hd :: tl =>
          intro hpot
          rcases List.mem_cons.mp hpot with rfl | hpot
          · simp only at hq
            have := (List.mem_filter.mp hq).2
            simpa using this
          · exact ih _ pot hpot q hq

/-- C2 — side-pot construction: over a duplicate-free seat order,
`buildPots` computes exactly the layered side pots the specification
describes (smallest positive remaining contribution as the level, layer
amount = level × number of positive contributors, eligibility = those
contributors minus the folded ones, level subtracted and repeated), and no
folded player ever appears in any pot's eligibility list. -/
theorem side_pot_construction :
    ∀ (total : PMap Int) (folded : PMap Bool) (seatOrder : List String),
      seatOrder.Nodup →
      buildPots total folded seatOrder = sidePotsSpec total folded seatOrder ∧
      ∀ pot ∈ buildPots total folded seatOrder,
        ∀ q ∈ pot.eligiblePlayerIds, folded q = false := by
  intro total folded seatOrder hnd
  exact ⟨buildPotsGo_eq_spec folded seatOrder hnd seatOrder.length total,
    fun pot hpot => buildPotsGo_folded_not_eligible folded seatOrder seatOrder.length
      total pot hpot⟩

/-- Contribution map of the C2 witness: `x` put in 5, `y` and `z` 10. -/
def potDemoTotal : PMap Int := fun q => if q = "x" then 5 else 10

/-- Folded map of the C2 witness: only `z` folded. -/
def potDemoFolded : PMap Bool := fun q => q == "z"

/-- Witness for C2: three seats (5/10/10 contributed, `z` folded) produce a
15-chip main pot for `x` and `y` and a 10-chip side pot for `y` alone. -/
theorem side_pot_construction_witness :
    (["x", "y", "z"] : List String).Nodup ∧
    buildPots potDemoTotal potDemoFolded ["x", "y", "z"] =
      sidePotsSpec potDemoTotal potDemoFolded ["x", "y", "z"] ∧
    (∀ pot ∈ buildPots potDemoTotal potDemoFolded ["x", "y", "z"],
      ∀ q ∈ pot.eligiblePlayerIds, potDemoFolded q = false) ∧
    buildPots potDemoTotal potDemoFolded ["x", "y", "z"] =
      [{ amount := 15, eligiblePlayerIds := ["x", "y"] },
       { amount := 10, eligiblePlayerIds := ["y"] }] := by
  refine ⟨by decide, ?_, ?_, by rfl⟩
  · exact (side_pot_construction potDemoTotal potDemoFolded ["x", "y", "z"] (by decide)).1
  · exact (side_pot_construction potDemoTotal potDemoFolded ["x", "y", "z"] (by decide)).2

/-! ## C6: evaluator contract -/

/-- C6 — evaluator contract: on fewer than 5 or more than 7 cards
`evaluateBestHand` fails with the invalid-input error; on 5 to 7 cards it
returns the score of some 5-card sublist that is lexicographically maximal
(via `compareScoreVectors`) over all 5-card sublists of the input. -/
theorem evaluator_contract :
    ∀ cards : List Card,
      ((cards.length < 5 ∨ 7 < cards.length) →
        evaluateBestHand cards =
          .error "Holdem hand evaluation requires between 5 and 7 cards") ∧
      (5 ≤ cards.length → cards.length ≤ 7 →
        ∃ best,
          evaluateBestHand cards = .ok best ∧
          (∃ l, l.length = 5 ∧ l.Sublist cards ∧ best = evaluateFive l) ∧
          ∀ l, l.length = 5 → l.Sublist cards →
            compareScoreVectors (evaluateFive l).scoreVector best.scoreVector ≤ 0) := by
  intro cards
  constructor
  · intro hlen
    rw [evaluateBestHand, if_pos hlen]
  · intro h5 h7
    have hif : ¬(cards.length < 5 ∨ 7 < cards.length) := by omega
    have htk : cards.take 5 ∈ combs 5 cards :=
      (mem_combs 5 cards (cards.take 5)).mpr
        ⟨by simp [List.length_take]; omega, List.take_sublist 5 cards⟩
    rw [evaluateBestHand, if_neg hif]
    match hcm : combs 5 cards with
    | [] => rw [hcm] at htk; exact absurd htk (List.not_mem_nil _)
    | first :: rest =>
        refine ⟨bestOf first rest, rfl, ?_, ?_⟩
        · rcases bestOf_mem first rest with h | ⟨l, hl, h⟩
          · have hfm : first ∈ combs 5 cards := by rw [hcm]; exact List.mem_cons_self _ _
            rcases (mem_combs 5 cards first).mp hfm with ⟨hlen, hsub⟩
            exact ⟨first, hlen, hsub, h⟩
          · have hlm : l ∈ combs 5 cards := by rw [hcm]; exact List.mem_cons_of_mem _ hl
            rcases (mem_combs 5 cards l).mp hlm with ⟨hlen, hsub⟩
            exact ⟨l, hlen, hsub, h⟩
        · intro l hlen hsub
          have hlm : l ∈ combs 5 cards := (mem_combs 5 cards l).mpr ⟨hlen, hsub⟩
          rw [hcm] at hlm
          rcases List.mem_cons.mp hlm with rfl | hlm
          · exact (bestOf_ge l rest).1
          · exact (bestOf_ge first rest).2 l hlm

/-- Five fixed cards used as the in-range C6 witness input. -/
def handDemo : List Card :=
  [⟨.r2, .clubs⟩, ⟨.r7, .diamonds⟩, ⟨.r9, .hearts⟩, ⟨.rJ, .spades⟩, ⟨.rK, .spades⟩]

/-- Witness for C6: the four-card `tdW` is rejected, the five-card
`handDemo` yields a lexicographically maximal 5-card score. -/
theorem evaluator_contract_witness :
    (tdW.length < 5 ∨ 7 < tdW.length) ∧
    evaluateBestHand tdW =
      .error "Holdem hand evaluation requires between 5 and 7 cards" ∧
    5 ≤ handDemo.length ∧ handDemo.length ≤ 7 ∧
    ∃ best,
      evaluateBestHand handDemo = .ok best ∧
      (∃ l, l.length = 5 ∧ l.Sublist handDemo ∧ best = evaluateFive l) ∧
      ∀ l, l.length = 5 → l.Sublist handDemo →
        compareScoreVectors (evaluateFive l).scoreVector best.scoreVector ≤ 0 :=
  ⟨by decide, (evaluator_contract tdW).1 (by decide), by decide, by decide,
   (evaluator_contract handDemo).2 (by decide) (by decide)⟩

/-! ## C8: the active-player / round-closed invariant -/

theorem evaluateRound_active_iff (s : BettingState) (l : Option String) :
    (evaluateRound s l).activePlayerId = none ↔ (evaluateRound s l).roundClosed = true := by
  unfold evaluateRound
  dsimp only
  split
  · simp
  · split <;> simp

theorem applyBettingActionCore_ok_shape (s : BettingState) (p : String)
    (a : BettingAction) (s' : BettingState) :
    applyBettingActionCore s p a = .ok s' → ∃ t l, s' = evaluateRound t l := by
  intro hok
  unfold applyBettingActionCore at hok
  dsimp only at hok
  repeat' split at hok
  all_goals first
    | (simp only [Except.ok.injEq] at hok; exact ⟨_, _, hok.symm⟩)
    | exact absurd hok (by simp)

theorem applyBettingAction_ok_shape (s : BettingState) (p : String)
    (a : BettingAction) (s' : BettingState) :
    applyBettingAction s p a = .ok s' → ∃ t l, s' = evaluateRound t l := by
  intro hok
  unfold applyBettingAction at hok
  match a with
  | .fold | .check | .call | .bet _ | .raise _ =>
      exact applyBettingActionCore_ok_shape _ _ _ _ hok
  | .all_in =>
      simp only at hok
      repeat' split at hok
      all_goals first
        | exact applyBettingActionCore_ok_shape _ _ _ _ hok
        | exact absurd hok (by simp)

theorem except_bind_ok_iff {α β : Type} {x : Except String α} {f : α → Except String β}
    {b : β} : (x >>= f) = .ok b ↔ ∃ a, x = .ok a ∧ f a = .ok b := by
  cases x with
  | error e =>
      constructor
      · intro h; exact absurd h (by simp [Bind.bind, Except.bind])
      · rintro ⟨a, ha, _⟩; exact absurd ha (by simp)
  | ok a =>
      constructor
      · intro h; exact ⟨a, rfl, h⟩
      · rintro ⟨a', ha, hf⟩
        obtain rfl := Except.ok.inj ha
        exact hf

theorem createBettingState_active_iff (cfg : BettingConfig) (bs : BettingState) :
    createBettingState cfg = .ok bs →
    (bs.activePlayerId = none ↔ bs.roundClosed = true) := by
  intro hok
  unfold createBettingState at hok
  split at hok
  · exact absurd hok (by simp)
  · rw [except_bind_ok_iff] at hok
    obtain ⟨init, hini, hok⟩ := hok
    try dsimp only at hok
    rw [except_bind_ok_iff] at hok
    obtain ⟨state1, hfb, hok⟩ := hok
    try dsimp only at hok
    repeat' split at hok
    all_goals
      simp only [Except.ok.injEq] at hok
    all_goals subst hok
    all_goals first
      | exact evaluateRound_active_iff _ _
      | simp_all

/-- C8 — active-player invariant: any betting state produced by
`createBettingState` or by a successful `applyBettingAction` has
`activePlayerId = none` exactly when `roundClosed = true` (every producing
branch ends in `evaluateRound`, which couples the two fields, except the
explicit `roundClosed := false` branch of `createBettingState`, which
carries a `some` active player). -/
theorem active_player_round_closed_iff :
    ∀ (cfg : BettingConfig) (s : BettingState) (p : String) (a : BettingAction)
      (bs : BettingState),
      (createBettingState cfg = .ok bs →
        (bs.activePlayerId = none ↔ bs.roundClosed = true)) ∧
      (applyBettingAction s p a = .ok bs →
        (bs.activePlayerId = none ↔ bs.roundClosed = true)) := by
  intro cfg s p a bs
  refine ⟨createBettingState_active_iff cfg bs, fun hok => ?_⟩
  obtain ⟨t, l, rfl⟩ := applyBettingAction_ok_shape s p a bs hok
  exact evaluateRound_active_iff t l

/-- A two-seat preflop configuration with blinds 5/10 used by the C8
witness. -/
def cbDemo : BettingConfig :=
  { phase := .preflop,
    seats := [{ playerId := "p", stack := 100 }, { playerId := "q", stack := 100 }],
    forcedBets := [{ playerId := "p", amount := 5, reason := some "small blind" },
                   { playerId := "q", amount := 10, reason := some "big blind" }],
    firstToActPlayerId := some "p", minOpenBet := some 10 }

/-- The betting state `cbDemo` creates. -/
def cbDemoRes : BettingState :=
  match createBettingState cbDemo with
  | .ok s => s
  | .error _ => checkState

/-- The betting state after `c` calls in `underRaiseState`. -/
def callDemoRes : BettingState :=
  match applyBettingAction underRaiseState "c" .call with
  | .ok s => s
  | .error _ => underRaiseState

/-- Witness for C8: a freshly created two-seat round and a successful call
both satisfy the iff. -/
theorem active_player_round_closed_iff_witness :
    createBettingState cbDemo = .ok cbDemoRes ∧
    (cbDemoRes.activePlayerId = none ↔ cbDemoRes.roundClosed = true) ∧
    applyBettingAction underRaiseState "c" .call = .ok callDemoRes ∧
    (callDemoRes.activePlayerId = none ↔ callDemoRes.roundClosed = true) :=
  ⟨by rfl,
   (active_player_round_closed_iff cbDemo underRaiseState "c" .call cbDemoRes).1 (by rfl),
   by rfl,
   (active_player_round_closed_iff cbDemo underRaiseState "c" .call callDemoRes).2 (by rfl)⟩

/-! ## C1: chip conservation

List and sum helpers used by the conservation argument. -/

theorem sumBy_map (l : List α) (g : α → β) (f : β → Int) :
    sumBy (l.map g) f = sumBy l (fun x => f (g x)) := by
  induction l with
  | nil => rfl
  | cons x xs ih => simp only [List.map_cons, sumBy_cons, ih]

theorem sumBy_zero (l : List α) : sumBy l (fun _ => (0 : Int)) = 0 := by
  induction l with
  | nil => rfl
  | cons x xs ih => rw [sumBy_cons, ih, add_zero]

theorem sumBy_add (l : List α) (f g : α → Int) :
    sumBy l (fun x => f x + g x) = sumBy l f + sumBy l g := by
  induction l with
  | nil => rfl
  | cons x xs ih =>
      simp only [sumBy_cons, ih]
      ring

theorem sumBy_sub (l : List α) (f g : α → Int) :
    sumBy l (fun x => f x - g x) = sumBy l f - sumBy l g := by
  induction l with
  | nil => rfl
  | cons x xs ih =>
      simp only [sumBy_cons, ih]
      ring

theorem sumBy_filter_split (l : List α) (p : α → Bool) (f : α → Int) :
    sumBy l f = sumBy (l.filter p) f + sumBy (l.filter (fun x => !p x)) f := by
  induction l with
  | nil => rfl
  | cons x xs ih =>
      by_cases hx : p x
      · simp only [sumBy_cons, List.filter_cons, hx, if_pos, Bool.not_true, if_neg, ih]
        simp only [Bool.false_eq_true, if_false, sumBy_cons]
        ring
      · have hx' : p x = false := by simpa using hx
        simp only [sumBy_cons, List.filter_cons, hx', Bool.not_false, Bool.false_eq_true,
          if_false, if_true, sumBy_cons, ih]
        ring

theorem sumBy_single (L : List String) (f : String → Int) (x : String)
    (hnd : L.Nodup) (hx : x ∈ L) (hz : ∀ q ∈ L, q ≠ x → f q = 0) :
    sumBy L f = f x := by
  induction L with
  | nil => exact absurd hx (List.not_mem_nil x)
  | cons a as ih =>
      rcases List.mem_cons.mp hx with rfl | hx
      · rw [sumBy_cons]
        have hz' : sumBy as f = 0 := by
          have : ∀ q ∈ as, f q = 0 := by
            intro q hq
            exact hz q (by simp [hq]) (fun hqa => (List.nodup_cons.mp hnd).1 (hqa ▸ hq))
          calc sumBy as f = sumBy as (fun _ => (0 : Int)) := sumBy_congr this
            _ = 0 := sumBy_zero as
        rw [hz', add_zero]
      · rw [sumBy_cons, hz a (by simp) (fun hax => (List.nodup_cons.mp hnd).1 (hax ▸ hx)),
          zero_add]
        exact ih (List.nodup_cons.mp hnd).2 hx (fun q hq => hz q (by simp [hq]))

theorem sumBy_indicator (l : List String) (p : String → Bool) (c : Int) :
    sumBy l (fun q => if p q then c else 0) = c * ((l.filter p).length : Int) := by
  induction l with
  | nil => simp [sumBy_nil]
  | cons a as ih =>
      rw [sumBy_cons, ih, List.filter_cons]
      by_cases ha : p a
      · simp only [ha, if_pos, if_true, List.length_cons]
        push_cast
        ring
      · have ha' : p a = false := by simpa using ha
        simp only [ha', Bool.false_eq_true, if_false]
        ring

theorem filter_map_comm (l : List α) (g : α → β) (p : β → Bool) :
    (l.map g).filter p = (l.filter (fun x => p (g x))).map g := by
  induction l with
  | nil => rfl
  | cons x xs ih =>
      simp only [List.map_cons, List.filter_cons]
      by_cases hx : p (g x)
      · simp [hx, ih]
      · have hx' : p (g x) = false := by simpa using hx
        simp [hx', ih]

theorem members_map_perm (players : List HoldemPlayer) (L : List String)
    (hnd : (players.map (fun p => p.id)).Nodup) (hLnd : L.Nodup)
    (hsub : ∀ q ∈ L, q ∈ players.map (fun p => p.id)) :
    ((players.filter (fun p => decide (p.id ∈ L))).map (fun p => p.id)).Perm L := by
  have h1 : ((players.filter (fun p => decide (p.id ∈ L))).map (fun p => p.id)).Nodup := by
    have hsubl : (players.filter (fun p => decide (p.id ∈ L))).Sublist players :=
      List.filter_sublist players
    exact (hsubl.map (fun p => p.id)).nodup hnd
  rw [List.perm_ext_iff_of_nodup h1 hLnd]
  intro q
  constructor
  · intro hq
    rcases List.mem_map.mp hq with ⟨p, hp, rfl⟩
    exact of_decide_eq_true (List.mem_filter.mp hp).2
  · intro hq
    rcases List.mem_map.mp (hsub q hq) with ⟨p, hp, rfl⟩
    exact List.mem_map.mpr ⟨p, List.mem_filter.mpr ⟨hp, decide_eq_true hq⟩, rfl⟩

/-- Transfer a keyed sum over the members of `L` from the player list to
`L` itself. -/
theorem sumBy_players_mem (players : List HoldemPlayer) (L : List String) (f : String → Int)
    (hnd : (players.map (fun p => p.id)).Nodup) (hLnd : L.Nodup)
    (hsub : ∀ q ∈ L, q ∈ players.map (fun p => p.id)) :
    sumBy players (fun p => if p.id ∈ L then f p.id else 0) = sumBy L f := by
  have hsplit := sumBy_filter_split players (fun p => decide (p.id ∈ L))
    (fun p => if p.id ∈ L then f p.id else 0)
  rw [hsplit]
  have hzero : sumBy (players.filter (fun p => !decide (p.id ∈ L)))
      (fun p => if p.id ∈ L then f p.id else 0) = 0 := by
    have hall : ∀ p ∈ players.filter (fun p => !decide (p.id ∈ L)),
        (if p.id ∈ L then f p.id else 0) = (fun _ => (0 : Int)) p := by
      intro p hp
      have hnm := (List.mem_filter.mp hp).2
      rw [if_neg]
      simpa using hnm
    rw [sumBy_congr hall, sumBy_zero]
  have hmem : ∀ p ∈ players.filter (fun p => decide (p.id ∈ L)),
      (if p.id ∈ L then f p.id else 0) = (fun p : HoldemPlayer => f p.id) p := by
    intro p hp
    exact if_pos (of_decide_eq_true (List.mem_filter.mp hp).2)
  rw [sumBy_congr hmem, hzero, add_zero]
  exact (sumBy_map (players.filter (fun p => decide (p.id ∈ L))) (fun p => p.id) f).symm.trans
    (sumBy_perm (members_map_perm players L hnd hLnd hsub) f)

theorem same_id_eq {players : List HoldemPlayer}
    (hnd : (players.map (fun p => p.id)).Nodup) {p p' : HoldemPlayer}
    (hp : p ∈ players) (hp' : p' ∈ players) (hid : p.id = p'.id) : p = p' :=
  List.inj_on_of_nodup_map hnd hp hp' hid

theorem find?_self_of_nodup (players : List HoldemPlayer)
    (hnd : (players.map (fun p => p.id)).Nodup) (p : HoldemPlayer) (hp : p ∈ players) :
    players.find? (fun r => r.id == p.id) = some p := by
  induction players with
  | nil => exact absurd hp (List.not_mem_nil p)
  | cons a as ih =>
      rw [List.find?_cons]
      by_cases ha : a.id = p.id
      · have : a = p := same_id_eq hnd (by simp) hp ha
        subst this
        simp
      · have hne : (a.id == p.id) = false := by simpa using ha
        rw [hne]
        rcases List.mem_cons.mp hp with rfl | hp
        · exact absurd rfl ha
        · have htl : (as.map (fun p => p.id)).Nodup := by
            simp only [List.map_cons, List.nodup_cons] at hnd
            exact hnd.2
          exact ih htl hp

/-- Sum of the pot amounts that `buildPots` emits: over a duplicate-free
seat order with non-negative contributions, the layers partition the total
contributed amount exactly. -/
theorem buildPotsGo_sum (folded : PMap Bool) (so : List String) (hnd : so.Nodup) :
    ∀ (fuel : Nat) (t : PMap Int),
      (∀ q ∈ so, 0 ≤ t q) →
      (so.filter (fun q => decide (0 < t q))).length ≤ fuel →
      sumBy (buildPotsGo folded so fuel t) (fun pot => pot.amount) = sumBy so t := by
  intro fuel
  induction fuel with
  | zero =>
      intro t hnn hlen
      have hnil : so.filter (fun q => decide (0 < t q)) = [] :=
        List.length_eq_zero.mp (by omega)
      have hall : ∀ q ∈ so, t q = (fun _ => (0 : Int)) q := by
        intro q hq
        have hnp : ¬ 0 < t q := by
          intro hpos
          have hm : q ∈ so.filter (fun q => decide (0 < t q)) :=
            List.mem_filter.mpr ⟨hq, by simpa using hpos⟩
          rw [hnil] at hm
          exact absurd hm (List.not_mem_nil q)
        have := hnn q hq
        simp only
        omega
      rw [buildPotsGo, sumBy_nil, sumBy_congr hall, sumBy_zero]
  | succ f ih =>
      intro t hnn hlen
      rw [buildPotsGo]
      match hfil : so.filter (fun q => decide (0 < t q)) with
      | [] =>
          have hall : ∀ q ∈ so, t q = (fun _ => (0 : Int)) q := by
            intro q hq
            have hnp : ¬ 0 < t q := by
              intro hpos
              have hm : q ∈ so.filter (fun q => decide (0 < t q)) :=
                List.mem_filter.mpr ⟨hq, by simpa using hpos⟩
              rw [hfil] at hm
              exact absurd hm (List.not_mem_nil q)
            have := hnn q hq
            simp only
            omega
          rw [sumBy_nil, sumBy_congr hall, sumBy_zero]
      | hd :: tl =>
          have hpos : ∀ q ∈ hd :: tl, (0 : Int) < t q := by
            intro q hq
            have hm : q ∈ so.filter (fun q => decide (0 < t q)) := hfil ▸ hq
            have := List.of_mem_filter hm
            simpa using this
          have hsub : ∀ q ∈ hd :: tl, q ∈ so := by
            intro q hq
            exact List.mem_of_mem_filter (hfil ▸ hq : q ∈ so.filter _)
          have hposnd : (hd :: tl).Nodup := hfil ▸ hnd.filter _
          have hlev_le : ∀ q ∈ hd :: tl, foldMin t hd tl ≤ t q := foldMin_le t hd tl
          have hlev_pos : 0 < foldMin t hd tl := by
            rcases foldMin_mem t hd tl with ⟨q, hq, hmin⟩
            rw [hmin]
            exact hpos q hq
          have hchar : ∀ x, subtractLevel t (hd :: tl) (foldMin t hd tl) x =
              t x - (if x ∈ hd :: tl then foldMin t hd tl else 0) := by
            intro x
            rw [subtractLevel_apply]
            by_cases hx : x ∈ hd :: tl
            · rw [if_pos hx, List.count_eq_one_of_mem hposnd hx]
              push_cast
              ring
            · rw [if_neg hx, List.count_eq_zero_of_not_mem hx]
              push_cast
              ring
          have hnn' : ∀ q ∈ so, 0 ≤ subtractLevel t (hd :: tl) (foldMin t hd tl) q := by
            intro q hq
            rw [hchar q]
            by_cases hqm : q ∈ hd :: tl
            · rw [if_pos hqm]
              have := hlev_le q hqm
              omega
            · rw [if_neg hqm]
              have := hnn q hq
              omega
          have hlen' : (so.filter (fun q =>
              decide (0 < subtractLevel t (hd :: tl) (foldMin t hd tl) q))).length ≤ f := by
            have hdec := buildPots_step_decreases t so hd tl hfil
            have hle : (hd :: tl).length ≤ f + 1 := hfil ▸ hlen
            omega
          rw [sumBy_cons, ih _ hnn' hlen']
          have hsum' : sumBy so (subtractLevel t (hd :: tl) (foldMin t hd tl)) =
              sumBy so t - foldMin t hd tl * ((hd :: tl).length : Int) := by
            rw [sumBy_congr (fun q _ => hchar q), sumBy_sub]
            have hind : sumBy so (fun x => if x ∈ hd :: tl then foldMin t hd tl else 0) =
                foldMin t hd tl * ((so.filter (fun x => decide (x ∈ hd :: tl))).length : Int) := by
              have heq : ∀ x ∈ so, (if x ∈ hd :: tl then foldMin t hd tl else 0) =
                  (fun x => if decide (x ∈ hd :: tl) = true then foldMin t hd tl else 0) x := by
                intro x _
                simp only [decide_eq_true_eq]
              rw [sumBy_congr heq, sumBy_indicator]
            rw [hind]
            have hfeq : so.filter (fun x => decide (x ∈ hd :: tl)) = hd :: tl := by
              have : ∀ x ∈ so, (decide (x ∈ hd :: tl)) = (fun q => decide (0 < t q)) x := by
                intro x hx
                show decide (x ∈ hd :: tl) = decide (0 < t x)
                by_cases hxm : x ∈ hd :: tl
                · rw [decide_eq_true hxm]
                  have := hpos x hxm
                  exact (decide_eq_true this).symm
                · have h1 : (decide (x ∈ hd :: tl)) = false := by simpa using hxm
                  have hnq : ¬ 0 < t x := by
                    intro hpx
                    exact hxm (hfil ▸ List.mem_filter.mpr ⟨hx, by simpa using hpx⟩)
                  have h2 : (decide (0 < t x)) = false := by simpa using hnq
                  rw [h1, h2]
              rw [List.filter_congr this, hfil]
            rw [hfeq]
          rw [hsum']
          simp only
          ring

theorem buildPots_sum (t : PMap Int) (folded : PMap Bool) (so : List String)
    (hnd : so.Nodup) (hnn : ∀ q ∈ so, 0 ≤ t q) :
    sumBy (buildPots t folded so) (fun pot => pot.amount) = sumBy so t := by
  unfold buildPots
  exact buildPotsGo_sum folded so hnd so.length t hnn (List.length_filter_le _ _)

theorem validateTurn_none_facts (s : BettingState) (p : String)
    (h : validateTurn s p = none) :
    p ∈ s.seatOrder ∧ s.roundClosed = false ∧ s.activePlayerId = some p ∧
    s.foldedByPlayerId p = false ∧ s.allInByPlayerId p = false ∧
    0 < s.stackByPlayerId p := by
  unfold validateTurn at h
  split_ifs at h with h1 h2 h3 h4 h5 h6
  refine ⟨by simpa using h1, by simpa using h2, ?_, by simpa using h4,
    by simpa using h5, by omega⟩
  by_cases hap : s.activePlayerId = some p
  · exact hap
  · exact absurd hap h3

/-- Bookkeeping facts of a successful betting action: the actor is seated,
the seat order is unchanged, per seat the stack plus the round contribution
is conserved, round contributions never decrease, only the actor's round
contribution moves, and non-negative stacks stay non-negative. -/
theorem applyBettingActionCore_deltas (s : BettingState) (p : String) (a : BettingAction)
    (s' : BettingState) (hok : applyBettingActionCore s p a = .ok s') :
    p ∈ s.seatOrder ∧
    s'.seatOrder = s.seatOrder ∧
    (∀ q, s'.stackByPlayerId q + s'.roundContributionByPlayerId q
        = s.stackByPlayerId q + s.roundContributionByPlayerId q) ∧
    (∀ q, s.roundContributionByPlayerId q ≤ s'.roundContributionByPlayerId q) ∧
    (∀ q, q ≠ p → s'.roundContributionByPlayerId q = s.roundContributionByPlayerId q) ∧
    (∀ q, 0 ≤ s.stackByPlayerId q → 0 ≤ s'.stackByPlayerId q) := by
  unfold applyBettingActionCore at hok
  cases hvt : validateTurn s p with
  | some e => rw [hvt] at hok; exact absurd hok (by simp)
  | none =>
    rw [hvt] at hok
    obtain ⟨hmem, -, -, -, -, -⟩ := validateTurn_none_facts s p hvt
    dsimp only at hok
    repeat' split at hok
    all_goals try (exact Except.noConfusion hok)
    all_goals
      (simp only [Except.ok.injEq] at hok; subst hok;
       refine ⟨hmem, by rw [evaluateRound_seatOrder], ?_, ?_, ?_, ?_⟩)
    all_goals
      first
        | (intro q hq
           simp only [evaluateRound_round, setKey]
           (try split_ifs with h) <;> first | rfl | exact absurd h hq)
        | (intro q
           try intro hq
           simp only [evaluateRound_stack, evaluateRound_round, setKey]
           try split_ifs with h
           all_goals try subst h
           all_goals omega)

theorem applyBettingAction_deltas (s : BettingState) (p : String) (a : BettingAction)
    (s' : BettingState) (hok : applyBettingAction s p a = .ok s') :
    p ∈ s.seatOrder ∧
    s'.seatOrder = s.seatOrder ∧
    (∀ q, s'.stackByPlayerId q + s'.roundContributionByPlayerId q
        = s.stackByPlayerId q + s.roundContributionByPlayerId q) ∧
    (∀ q, s.roundContributionByPlayerId q ≤ s'.roundContributionByPlayerId q) ∧
    (∀ q, q ≠ p → s'.roundContributionByPlayerId q = s.roundContributionByPlayerId q) ∧
    (∀ q, 0 ≤ s.stackByPlayerId q → 0 ≤ s'.stackByPlayerId q) := by
  unfold applyBettingAction at hok
  match a with
  | .fold | .check | .call | .bet _ | .raise _ =>
      exact applyBettingActionCore_deltas _ _ _ _ hok
  | .all_in =>
      dsimp only at hok
      repeat' split at hok
      all_goals first
        | exact applyBettingActionCore_deltas _ _ _ _ hok
        | exact absurd hok (by simp)

/-- The stack a seat list assigns to a player id (0 when absent). -/
def seatStackOf (seats : List BettingSeat) (q : String) : Int :=
  match seats.find? (fun st => st.playerId == q) with
  | some st => st.stack
  | none => 0

theorem initSeatsGo_ok (seats : List BettingSeat) :
    ∀ (acc out : SeatInit), initSeatsGo acc seats = .ok out →
      out.seatOrder = acc.seatOrder ++ seats.map (fun st => st.playerId) ∧
      (∀ st ∈ seats, 0 ≤ st.stack ∧ st.playerId ∉ acc.seatOrder) ∧
      (acc.seatOrder.Nodup → out.seatOrder.Nodup) ∧
      (∀ q, out.stackByPlayerId q =
        match seats.find? (fun st => st.playerId == q) with
        | some st => st.stack
        | none => acc.stackByPlayerId q) ∧
      (∀ q, out.roundContributionByPlayerId q =
        if q ∈ seats.map (fun st => st.playerId) then 0
        else acc.roundContributionByPlayerId q) ∧
      (∀ q, out.totalContributionByPlayerId q =
        if q ∈ seats.map (fun st => st.playerId) then 0
        else acc.totalContributionByPlayerId q) := by
  induction seats with
  | nil =>
      intro acc out hok
      simp only [initSeatsGo, Except.ok.injEq] at hok
      subst hok
      refine ⟨by simp, by simp, fun h => by simpa using h, ?_, ?_, ?_⟩
      · intro q; rfl
      · intro q; simp
      · intro q; simp
  | cons seat rest ih =>
      intro acc out hok
      rw [initSeatsGo] at hok
      split at hok
      · exact Except.noConfusion hok
      split at hok
      · exact Except.noConfusion hok
      rename_i hdup hneg
      obtain ⟨hso, hguards, hnod, hstack, hround, htotal⟩ := ih _ _ hok
      have hsoeq : out.seatOrder = acc.seatOrder ++
          (seat :: rest).map (fun st => st.playerId) := by
        rw [hso]
        simp
      refine ⟨hsoeq, ?_, ?_, ?_, ?_, ?_⟩
      · intro st hst
        rcases List.mem_cons.mp hst with rfl | hst
        · exact ⟨by omega, hdup⟩
        · have hg := hguards st hst
          refine ⟨hg.1, ?_⟩
          intro hmem
          exact hg.2 (by simp [hmem])
      · intro hacc
        apply hnod
        simp only [List.nodup_append, List.nodup_cons]
        refine ⟨hacc, ⟨by simp, by simp⟩, ?_⟩
        intro x hx
        simp only [List.mem_singleton]
        intro hxe
        subst hxe
        exact hdup hx
      · intro q
        rw [hstack q, List.find?_cons]
        by_cases hq : seat.playerId = q
        · subst hq
          cases hfr : rest.find? (fun st => st.playerId == seat.playerId) with
          | some st =>
              have hmem := List.mem_of_find?_eq_some hfr
              have hstq : st.playerId = seat.playerId := by
                have := List.find?_some hfr
                simpa using this
              have hg := (hguards st hmem).2
              exact absurd (by simp [hstq]) hg
          | none =>
              simp only [show (seat.playerId == seat.playerId) = true by simp, cond_true]
              exact setKey_same _ _ _
        · cases hfr : rest.find? (fun st => st.playerId == q) with
          | some st =>
              simp only [show (seat.playerId == q) = false by simpa using hq, cond_false]
          | none =>
              simp only [show (seat.playerId == q) = false by simpa using hq, cond_false]
              exact setKey_other _ _ _ _ (Ne.symm hq)
      · intro q
        rw [hround q]
        by_cases hq : q ∈ rest.map (fun st => st.playerId)
        · rw [if_pos hq, if_pos (by simp [hq])]
        · rw [if_neg hq]
          by_cases hq2 : seat.playerId = q
          · subst hq2
            rw [if_pos (by simp)]
            exact setKey_same _ _ _
          · rw [if_neg (by simp [hq, Ne.symm hq2])]
            exact setKey_other _ _ _ _ (Ne.symm hq2)
      · intro q
        rw [htotal q]
        by_cases hq : q ∈ rest.map (fun st => st.playerId)
        · rw [if_pos hq, if_pos (by simp [hq])]
        · rw [if_neg hq]
          by_cases hq2 : seat.playerId = q
          · subst hq2
            rw [if_pos (by simp)]
            exact setKey_same _ _ _
          · rw [if_neg (by simp [hq, Ne.symm hq2])]
            exact setKey_other _ _ _ _ (Ne.symm hq2)

theorem postContribution_facts (s : BettingState) (pid : String) (amt : Int)
    (hle : amt ≤ s.stackByPlayerId pid) (hpos : 0 ≤ amt) :
    (postContribution s pid amt).seatOrder = s.seatOrder ∧
    (∀ q, 0 ≤ s.stackByPlayerId q → 0 ≤ (postContribution s pid amt).stackByPlayerId q) ∧
    (∀ q, (postContribution s pid amt).stackByPlayerId q +
        (postContribution s pid amt).roundContributionByPlayerId q
      = s.stackByPlayerId q + s.roundContributionByPlayerId q) ∧
    (∀ q, s.roundContributionByPlayerId q ≤
        (postContribution s pid amt).roundContributionByPlayerId q) ∧
    (∀ q, (postContribution s pid amt).totalContributionByPlayerId q -
        (postContribution s pid amt).roundContributionByPlayerId q
      = s.totalContributionByPlayerId q - s.roundContributionByPlayerId q) ∧
    (∀ q, q ≠ pid →
      (postContribution s pid amt).roundContributionByPlayerId q
          = s.roundContributionByPlayerId q ∧
      (postContribution s pid amt).stackByPlayerId q = s.stackByPlayerId q) ∧
    (postContribution s pid amt).foldedByPlayerId = s.foldedByPlayerId ∧
    (postContribution s pid amt).pots = s.pots := by
  unfold postContribution
  refine ⟨rfl, ?_, ?_, ?_, ?_, ?_, rfl, rfl⟩
  · intro q hq
    dsimp only
    by_cases hqp : q = pid
    · subst hqp
      simp only [setKey_same]
      omega
    · simp only [setKey_other _ _ _ _ hqp]
      omega
  · intro q
    dsimp only
    by_cases hqp : q = pid
    · subst hqp
      simp only [setKey_same]
      omega
    · simp only [setKey_other _ _ _ _ hqp]
  · intro q
    dsimp only
    by_cases hqp : q = pid
    · subst hqp
      simp only [setKey_same]
      omega
    · simp only [setKey_other _ _ _ _ hqp]
      omega
  · intro q
    dsimp only
    by_cases hqp : q = pid
    · subst hqp
      simp only [setKey_same]
      omega
    · simp only [setKey_other _ _ _ _ hqp]
  · intro q hq
    dsimp only
    exact ⟨setKey_other _ _ _ _ hq, setKey_other _ _ _ _ hq⟩

theorem applyForcedBets_post (fbs : List ForcedBet) :
    ∀ (s s' : BettingState), applyForcedBets s fbs = .ok s' →
      (∀ q, 0 ≤ s.stackByPlayerId q) →
      s'.seatOrder = s.seatOrder ∧
      (∀ q, 0 ≤ s'.stackByPlayerId q) ∧
      (∀ q, s'.stackByPlayerId q + s'.roundContributionByPlayerId q
          = s.stackByPlayerId q + s.roundContributionByPlayerId q) ∧
      (∀ q, s.roundContributionByPlayerId q ≤ s'.roundContributionByPlayerId q) ∧
      (∀ q, s'.totalContributionByPlayerId q - s'.roundContributionByPlayerId q
          = s.totalContributionByPlayerId q - s.roundContributionByPlayerId q) ∧
      (∀ q, (∀ fb ∈ fbs, fb.playerId ≠ q) →
        s'.roundContributionByPlayerId q = s.roundContributionByPlayerId q ∧
        s'.stackByPlayerId q = s.stackByPlayerId q) ∧
      s'.foldedByPlayerId = s.foldedByPlayerId := by
  induction fbs with
  | nil =>
      intro s s' hok hnn
      simp only [applyForcedBets, Except.ok.injEq] at hok
      subst hok
      exact ⟨rfl, hnn, fun q => rfl, fun q => le_rfl, fun q => rfl,
        fun q _ => ⟨rfl, rfl⟩, rfl⟩
  | cons fb rest ih =>
      intro s s' hok hnn
      rw [applyForcedBets] at hok
      split at hok
      · exact Except.noConfusion hok
      split at hok
      · exact Except.noConfusion hok
      rename_i hmem hamt
      dsimp only at hok
      have hple : min (s.stackByPlayerId fb.playerId) fb.amount ≤
          s.stackByPlayerId fb.playerId := min_le_left _ _
      have hppos : 0 ≤ min (s.stackByPlayerId fb.playerId) fb.amount := by
        have h1 := hnn fb.playerId
        omega
      obtain ⟨pso, pnn, psum, pmono, pdiff, poff, pfold, ppots⟩ :=
        postContribution_facts s fb.playerId (min (s.stackByPlayerId fb.playerId) fb.amount)
          hple hppos
      obtain ⟨rso, rnn, rsum, rmono, rdiff, roff, rfold⟩ :=
        ih _ _ hok (fun q => pnn q (hnn q))
      refine ⟨rso.trans pso, rnn, ?_, ?_, ?_, ?_, rfold.trans pfold⟩
      · intro q
        rw [rsum q, psum q]
      · intro q
        exact le_trans (pmono q) (rmono q)
      · intro q
        rw [rdiff q, pdiff q]
      · intro q hq
        have hqfb : fb.playerId ≠ q := hq fb (by simp)
        obtain ⟨r1, r2⟩ := roff q (fun fb2 hfb2 => hq fb2 (by simp [hfb2]))
        obtain ⟨p1, p2⟩ := poff q (Ne.symm hqfb)
        exact ⟨r1.trans p1, r2.trans p2⟩

theorem createBettingState_ok_shape (cfg : BettingConfig) (bs : BettingState)
    (hok : createBettingState cfg = .ok bs) :
    ∃ init state0 state1,
      initSeatsGo { seatOrder := [],
                    stackByPlayerId := (fun _ => 0),
                    roundContributionByPlayerId := (fun _ => 0),
                    totalContributionByPlayerId := (fun _ => 0),
                    foldedByPlayerId := (fun _ => false),
                    allInByPlayerId := (fun _ => false),
                    hasActedByPlayerId := (fun _ => false) } cfg.seats = .ok init ∧
      state0.seatOrder = init.seatOrder ∧
      state0.stackByPlayerId = init.stackByPlayerId ∧
      state0.roundContributionByPlayerId = init.roundContributionByPlayerId ∧
      state0.totalContributionByPlayerId = init.totalContributionByPlayerId ∧
      applyForcedBets state0 cfg.forcedBets = .ok state1 ∧
      bs.seatOrder = state1.seatOrder ∧
      bs.stackByPlayerId = state1.stackByPlayerId ∧
      bs.roundContributionByPlayerId = state1.roundContributionByPlayerId ∧
      bs.totalContributionByPlayerId = state1.totalContributionByPlayerId ∧
      bs.foldedByPlayerId = state1.foldedByPlayerId ∧
      bs.pots = buildPots state1.totalContributionByPlayerId state1.foldedByPlayerId
        state1.seatOrder := by
  unfold createBettingState at hok
  split at hok
  · exact Except.noConfusion hok
  rw [except_bind_ok_iff] at hok
  obtain ⟨init, hini, hok⟩ := hok
  try dsimp only at hok
  rw [except_bind_ok_iff] at hok
  obtain ⟨state1, hfb, hok⟩ := hok
  try dsimp only at hok
  refine ⟨init,
    { phase := cfg.phase, seatOrder := init.seatOrder, activePlayerId := none,
      foldedByPlayerId := init.foldedByPlayerId,
      allInByPlayerId := init.allInByPlayerId,
      stackByPlayerId := init.stackByPlayerId,
      roundContributionByPlayerId := init.roundContributionByPlayerId,
      totalContributionByPlayerId := init.totalContributionByPlayerId,
      hasActedByPlayerId := init.hasActedByPlayerId,
      currentBet := 0, minRaiseIncrement := max 1 (cfg.minOpenBet.getD 1),
      minOpenBet := max 1 (cfg.minOpenBet.getD 1),
      roundClosed := false, pots := [], actionLog := [] },
    state1, hini, rfl, rfl, rfl, rfl, hfb, ?_⟩
  repeat' split at hok
  all_goals try (exact Except.noConfusion hok)
  all_goals
    (simp only [Except.ok.injEq] at hok; subst hok;
     refine ⟨?_, ?_, ?_, ?_, ?_, ?_⟩ <;>
       first
         | rfl
         | ((try rw [evaluateRound_seatOrder])
            (try rw [evaluateRound_stack])
            (try rw [evaluateRound_round])
            (try rw [evaluateRound_total])
            (try rw [evaluateRound_folded])
            (try rw [evaluateRound_pots])
            (try split)
            all_goals rfl))
